import Mathlib

/-!
Verification of the semantic retrieval + answer-confidence pipeline of the
HR document question-answering service.

The Python modules under verification are shallowly embedded below:

* `backend/text_chunker.py` — `clean_text`, `split_into_sentences`,
  `count_words`, `chunk_text`;
* `backend/semantic_search.py` — `embed_chunks`, `search_similar_chunks`;
* `backend/services/hr_chat_llm.py` — `safe_parse_llm_json`,
  `_extract_json_from_text`, `generate_response`, `_ensure_valid_response`;
* `backend/answer_generator.py` — `_calculate_confidence`,
  `_generate_reason`, `_assess_answer_quality`, `_generate_answer_strict`,
  `generate_answer_with_metadata`;
* `backend/app.py` — `reindex_hr_documents` and the module-level index state.

Modelling conventions:

* Python `str` is modelled as `List Char`; `pys` converts a Lean string
  literal.  Python floats are modelled as exact rationals `ℚ` (we do not
  model IEEE-754 rounding error; none of the verified properties is
  sensitive to it).  `round(x, 2)` is modelled as round-half-to-even on
  hundredths, matching CPython's documented behaviour on exact values.
* The regular expressions used by `clean_text` / `split_into_sentences` /
  `_extract_json_from_text` are embedded via a small fuel-bounded
  backtracking engine (`matchE`) whose alternative ordering (greedy `*+`
  longest-first, lazy `*?` shortest-first, leftmost match) follows the
  CPython `re` engine.  The fuel is always chosen large enough for the
  inputs at hand; on fuel exhaustion a match attempt reports "no match".
* External effects (the sentence-transformers encoder, the LLM providers,
  file extraction) are modelled as explicit parameters (`encode`,
  `llmOut`, extraction outcomes): the code under proof treats them as
  opaque calls returning a value or failing.
* `np.argsort` is modelled as a deterministic stable ascending sort of
  indices (NumPy's small-array sort is insertion sort, which is stable);
  `[::-1]` is `List.reverse`.
-/

/-- Convert a Lean string literal to the `List Char` model of a Python `str`. -/
def pys (s : String) : List Char := s.data

/-- The `\x7b` character (left curly brace). -/
def lbrace : Char := Char.ofNat 123

/-- The `\x7d` character (right curly brace). -/
def rbrace : Char := Char.ofNat 125

/-- Python `str.isspace` / `\s` for the ASCII range: space, TAB, LF, CR, VT, FF. -/
def isPySpace (c : Char) : Bool :=
  c == ' ' || c == '\t' || c == '\n' || c == '\r' || c == '\x0b' || c == '\x0c'

/-- ASCII decimal digit (`\d`). -/
def isDigitCh (c : Char) : Bool := '0' ≤ c && c ≤ '9'

/-- ASCII word character (`\w`): letter, digit or underscore. -/
def isWordCh (c : Char) : Bool :=
  ('a' ≤ c && c ≤ 'z') || ('A' ≤ c && c ≤ 'Z') || isDigitCh c || c == '_'

/-- ASCII uppercase letter (`[A-Z]`). -/
def isUpperAZ (c : Char) : Bool := 'A' ≤ c && c ≤ 'Z'

/-- ASCII lowercase letter (`[a-z]`). -/
def isLowerAZ (c : Char) : Bool := 'a' ≤ c && c ≤ 'z'

/-- Python `str.lower` (ASCII case folding suffices for the corpus). -/
def pyLower (s : List Char) : List Char := s.map Char.toLower

/-- Python `str.strip()`: drop leading and trailing whitespace. -/
def pyStrip (s : List Char) : List Char :=
  ((s.dropWhile isPySpace).reverse.dropWhile isPySpace).reverse

/-- Python `needle in haystack` (substring containment). -/
def containsSub (needle : List Char) : List Char → Bool
  | [] => needle.isPrefixOf []
  | c :: rest => needle.isPrefixOf (c :: rest) || containsSub needle rest

/-- Python `str.startswith`. -/
def pyStartsWith (pre s : List Char) : Bool := pre.isPrefixOf s

/-- Python `str.endswith`. -/
def pyEndsWith (suf s : List Char) : Bool := suf.reverse.isPrefixOf s.reverse

/-- Helper for `pySplitWs`: accumulate the current word (reversed). -/
def pySplitWsGo : List Char → List Char → List (List Char)
  | [], acc => if acc.isEmpty then [] else [acc.reverse]
  | c :: rest, acc =>
    if isPySpace c then
      if acc.isEmpty then pySplitWsGo rest [] else acc.reverse :: pySplitWsGo rest []
    else pySplitWsGo rest (c :: acc)

/-- Python `str.split()` with no argument: split on whitespace runs, no empties. -/
def pySplitWs (s : List Char) : List (List Char) := pySplitWsGo s []

/-- Python `str.split(sep)` for a single-character separator (keeps empties). -/
def pySplitChar (sep : Char) : List Char → List (List Char)
  | [] => [[]]
  | c :: rest =>
    match pySplitChar sep rest with
    | [] => [[c]]
    | h :: t => if c == sep then [] :: h :: t else (c :: h) :: t

/-- Python `str.split("\n\n")`: leftmost non-overlapping split on a blank line. -/
def pySplitPara : List Char → List (List Char)
  | [] => [[]]
  | '\n' :: '\n' :: rest => [] :: pySplitPara rest
  | c :: rest =>
    match pySplitPara rest with
    | [] => [[c]]
    | h :: t => (c :: h) :: t

/-- Python `sep.join(parts)`. -/
def joinSep (sep : List Char) : List (List Char) → List Char
  | [] => []
  | [x] => x
  | x :: y :: t => x ++ sep ++ joinSep sep (y :: t)

/-- `'\n'.join`. -/
def joinNl (parts : List (List Char)) : List Char := joinSep ['\n'] parts

/-- `' '.join`. -/
def joinSp (parts : List (List Char)) : List Char := joinSep [' '] parts

/-- Kernel-evaluable multiplication on `ℚ` (Batteries' `Rat.mul` is
`@[irreducible]`, which blocks `decide`); `ratMul_eq` identifies it with `*`. -/
def ratMul (a b : ℚ) : ℚ := mkRat (a.num * b.num) (a.den * b.den)

/-- Kernel-evaluable addition on `ℚ`; `ratAdd_eq` identifies it with `+`. -/
def ratAdd (a b : ℚ) : ℚ := mkRat (a.num * b.den + b.num * a.den) (a.den * b.den)

/-- Kernel-evaluable subtraction on `ℚ`; `ratSub_eq` identifies it with `-`. -/
def ratSub (a b : ℚ) : ℚ := mkRat (a.num * b.den - b.num * a.den) (a.den * b.den)

/-- Kernel-evaluable negation on `ℚ`. -/
def ratNeg (a : ℚ) : ℚ := mkRat (-a.num) a.den

/-- Kernel-evaluable inverse on `ℚ` (with `ratInv 0 = 0`). -/
def ratInv (a : ℚ) : ℚ :=
  mkRat (if a.num < 0 then -(a.den : ℤ) else (a.den : ℤ)) a.num.natAbs

/-- Kernel-evaluable division on `ℚ`; `ratDivQ_eq` identifies it with `/`. -/
def ratDivQ (a b : ℚ) : ℚ := ratMul a (ratInv b)

/-- The rational `n` (kernel-evaluable form of the cast `(n : ℚ)`). -/
def ratOfNat (n : ℕ) : ℚ := mkRat n 1

/-- `10 ^ e` as a rational, for an integer exponent. -/
def ratPow10 (e : ℤ) : ℚ :=
  if 0 ≤ e then mkRat ((10 : ℕ) ^ e.toNat : ℕ) 1 else mkRat 1 ((10 : ℕ) ^ (-e).toNat)

/-- Sum of a list of rationals (`sum(scores)`). -/
def listSum (l : List ℚ) : ℚ := l.foldl ratAdd 0

/-- Python `min(a, b)` on floats (returns the first argument on ties);
written out with `if` so that the kernel can evaluate it. -/
def pyMin (a b : ℚ) : ℚ := if a ≤ b then a else b

/-- Python `max(a, b)` on floats. -/
def pyMax (a b : ℚ) : ℚ := if a ≤ b then b else a

/-- Python `min(a, b)` on ints. -/
def pyMinI (a b : ℤ) : ℤ := if a ≤ b then a else b

/-- Python `max(a, b)` on nonnegative ints. -/
def pyMaxN (a b : ℕ) : ℕ := if a ≤ b then b else a

/-- Python `max(0.0, min(1.0, x))`. -/
def clamp01 (q : ℚ) : ℚ := pyMax 0 (pyMin 1 q)

/-- CPython `round` on an exact value: round half to even, to an integer.
(`Rat.floor` is used instead of `⌊·⌋` so the kernel can evaluate it;
`rat_floor_eq_floor` below identifies the two.) -/
def halfEven (q : ℚ) : ℤ :=
  let fl := Rat.floor q
  let f : ℚ := ratSub q (mkRat fl 1)
  if f < mkRat 1 2 then fl
  else if mkRat 1 2 < f then fl + 1
  else if fl % 2 = 0 then fl else fl + 1

/-- Python `round(x, 2)` on the rational model of a float. -/
def round2 (q : ℚ) : ℚ := mkRat (halfEven (ratMul q 100)) 100

/-! ### A small backtracking regex engine

Mirrors the CPython `re` matching order for the fixed patterns used by
`text_chunker.py` and `hr_chat_llm.py`: sequencing, character classes,
greedy / lazy star, lookahead, the `\b` word boundary, the multiline
anchors `^` / `$` and the single-line `$`.  `matchE fuel r s i k` tries to
match `r` in string `s` at position `i` and passes the end position of
each candidate match to the continuation `k`, in backtracking order;
the first `some` wins. -/

inductive RE where
  | eps : RE
  | cls : (Char → Bool) → RE
  | seq : RE → RE → RE
  | starG : RE → RE
  | starL : RE → RE
  | look : RE → RE
  | wb : RE
  | bolM : RE
  | eolM : RE
  | eolS : RE

/-- Is position `i` a `\b` word boundary of `s`? -/
def wordBoundary (s : List Char) (i : ℕ) : Bool :=
  let before := i ≠ 0 && isWordCh (s.getD (i - 1) ' ')
  let after := i < s.length && isWordCh (s.getD i ' ')
  before != after

/-- Fuel-bounded CPS matcher; see the section comment. -/
def matchE : ℕ → RE → List Char → ℕ → (ℕ → Option ℕ) → Option ℕ
  | 0, _, _, _, _ => none
  | fuel + 1, r, s, i, k =>
    match r with
    | .eps => k i
    | .cls p =>
      if i < s.length && p (s.getD i ' ') then k (i + 1) else none
    | .seq a b => matchE fuel a s i (fun j => matchE fuel b s j k)
    | .starG a =>
      match matchE fuel a s i
          (fun j => if i < j then matchE fuel (.starG a) s j k else none) with
      | some e => some e
      | none => k i
    | .starL a =>
      match k i with
      | some e => some e
      | none =>
        matchE fuel a s i
          (fun j => if i < j then matchE fuel (.starL a) s j k else none)
    | .look a =>
      match matchE fuel a s i some with
      | some _ => k i
      | none => none
    | .wb => if wordBoundary s i then k i else none
    | .bolM => if i = 0 || s.getD (i - 1) ' ' == '\n' then k i else none
    | .eolM => if i = s.length || s.getD i ' ' == '\n' then k i else none
    | .eolS =>
      if i = s.length || (i + 1 = s.length && s.getD i ' ' == '\n') then k i
      else none

/-- Sequence a list of regexes. -/
def reSeq (l : List RE) : RE := l.foldr .seq .eps

/-- Literal character (case sensitive). -/
def reLit (c : Char) : RE := .cls (fun x => x == c)

/-- Case-insensitive literal word. -/
def reLitCI (w : String) : RE := reSeq (w.data.map (fun c => .cls (fun x => x.toLower == c)))

/-- `X+` greedy. -/
def rePlus (a : RE) : RE := .seq a (.starG a)

/-- `\s+`. -/
def reWs1 : RE := rePlus (.cls isPySpace)

/-- `\s*`. -/
def reWs0 : RE := .starG (.cls isPySpace)

/-- `\d+`. -/
def reDig1 : RE := rePlus (.cls isDigitCh)

/-- Fuel large enough for every backtracking path of the fixed patterns on `s`. -/
def reFuel (s : List Char) : ℕ := (s.length + 4) * 64

/-- First match of `r` at or after position `p` (leftmost), as a `(start, end)` span. -/
def searchGo (r : RE) (s : List Char) : ℕ → ℕ → Option (ℕ × ℕ)
  | 0, _ => none
  | fuel + 1, p =>
    match matchE (reFuel s) r s p some with
    | some e => some (p, e)
    | none => if p < s.length then searchGo r s fuel (p + 1) else none

/-- `re.search`: leftmost match span. -/
def reSearch (r : RE) (s : List Char) : Option (ℕ × ℕ) :=
  searchGo r s (s.length + 1) 0

/-- Helper for `reSubDel`: walk positions, dropping matched spans. -/
def subDelGo (r : RE) (s : List Char) : ℕ → ℕ → List Char
  | 0, p => s.drop p
  | fuel + 1, p =>
    if p < s.length then
      match matchE (reFuel s) r s p some with
      | some e =>
        if p < e then subDelGo r s fuel e
        else s.getD p ' ' :: subDelGo r s fuel (p + 1)
      | none => s.getD p ' ' :: subDelGo r s fuel (p + 1)
    else []

/-- `re.sub(r, "", s)` for a pattern that never matches the empty string. -/
def reSubDel (r : RE) (s : List Char) : List Char :=
  subDelGo r s (s.length + 1) 0

/-- Helper for `reFindAll`: collect non-overlapping leftmost match spans. -/
def findAllGo (r : RE) (s : List Char) : ℕ → ℕ → List (ℕ × ℕ)
  | 0, _ => []
  | fuel + 1, p =>
    if p ≤ s.length then
      match matchE (reFuel s) r s p some with
      | some e =>
        if p < e then (p, e) :: findAllGo r s fuel e
        else (p, e) :: findAllGo r s fuel (p + 1)
      | none => if p < s.length then findAllGo r s fuel (p + 1) else []
    else []

/-- `re.findall` (spans of the full matches, non-overlapping, leftmost). -/
def reFindAll (r : RE) (s : List Char) : List (ℕ × ℕ) :=
  findAllGo r s (s.length + 1) 0

/-- The substring of `s` covered by span `(a, b)`. -/
def spanStr (s : List Char) (a b : ℕ) : List Char := (s.drop a).take (b - a)

/-! ### `backend/text_chunker.py` -/

/-- Pattern `\bPage\s+\d+\s+of\s+\d+\b` (IGNORECASE). -/
def pagePat1 : RE :=
  reSeq [.wb, reLitCI "page", reWs1, reDig1, reWs1, reLitCI "of", reWs1, reDig1, .wb]

/-- Pattern `\bPage\s+\d+\b` (IGNORECASE). -/
def pagePat2 : RE := reSeq [.wb, reLitCI "page", reWs1, reDig1, .wb]

/-- Pattern `\b\d+\s+of\s+\d+\b`. -/
def numOfPat : RE := reSeq [.wb, reDig1, reWs1, reLitCI "of", reWs1, reDig1, .wb]

/-- Pattern `^\s*\d+\.\s+.*?\.{3,}\s+\d+\s*$` (MULTILINE): a dotted-leader
table-of-contents entry line. -/
def tocLinePat : RE :=
  reSeq [.bolM, reWs0, reDig1, reLit '.', reWs1,
         .starL (.cls (fun c => c != '\n')),
         reLit '.', reLit '.', reLit '.', .starG (reLit '.'),
         reWs1, reDig1, reWs0, .eolM]

/-- Pattern `(?i)^\s*table\s+of\s+contents` (MULTILINE). -/
def tocHeadPat : RE :=
  reSeq [.bolM, reWs0, reLitCI "table", reWs1, reLitCI "of", reWs1, reLitCI "contents"]

/-- Pattern `(?i)(table\s+of\s+contents).*?(\n\n[A-Z][a-z]+(?:\s+[A-Z][a-z]+)*\s*$)`
with DOTALL (so `.` spans newlines and `$` is end-of-string / before a final newline). -/
def tocBlockPat : RE :=
  reSeq [reLitCI "table", reWs1, reLitCI "of", reWs1, reLitCI "contents",
         .starL (.cls (fun _ => true)),
         reLit '\n', reLit '\n',
         .cls isUpperAZ, rePlus (.cls isLowerAZ),
         .starG (reSeq [reWs1, .cls isUpperAZ, rePlus (.cls isLowerAZ)]),
         reWs0, .eolS]

/-- Is the stripped line a frequent (count ≥ 5) short (5 < len < 50) line of
`lines`?  Mirrors the `line_counts` / `frequent_lines` computation. -/
def isFrequentLine (lines : List (List Char)) (str : List Char) : Bool :=
  5 < str.length && str.length < 50 &&
    5 ≤ lines.countP (fun l => pyStrip l == str)

/-- Collapse runs of spaces (`re.sub(r' +', ' ', text)`).  The Boolean flag
records whether the previous kept character was a space. -/
def collapseSpacesGo : List Char → Bool → List Char
  | [], _ => []
  | c :: rest, prev =>
    if c == ' ' then
      if prev then collapseSpacesGo rest true else ' ' :: collapseSpacesGo rest true
    else c :: collapseSpacesGo rest false

/-- `re.sub(r' +', ' ', text)`. -/
def collapseSpaces (s : List Char) : List Char := collapseSpacesGo s false

/-- Emit a pending run of newlines, replacing runs of 3+ by exactly two. -/
def flushNl (pending : ℕ) : List Char :=
  if 3 ≤ pending then ['\n', '\n'] else List.replicate pending '\n'

/-- Helper for `collapseNl`: `pending` counts the newlines read but not yet emitted. -/
def collapseNlGo : List Char → ℕ → List Char
  | [], pending => flushNl pending
  | c :: rest, pending =>
    if c == '\n' then collapseNlGo rest (pending + 1)
    else flushNl pending ++ c :: collapseNlGo rest 0

/-- `re.sub(r'\n{3,}', '\n\n', text)`. -/
def collapseNl (s : List Char) : List Char := collapseNlGo s 0

/-- Lines 32–34 of `clean_text`: the three page-number pattern removals. -/
def removePagePatterns (t : List Char) : List Char :=
  reSubDel numOfPat (reSubDel pagePat2 (reSubDel pagePat1 t))

/-- Lines 38–56 of `clean_text`: drop short lines that recur five or more times. -/
def removeFrequentLines (t : List Char) : List Char :=
  let lines := pySplitChar '\n' t
  joinNl (lines.filter
    (fun l => !(isFrequentLine lines (pyStrip l) && (pyStrip l).length < 50)))

/-- Lines 64–69 of `clean_text`: strip a leading table-of-contents block. -/
def removeTocBlock (t : List Char) : List Char :=
  if (reSearch tocHeadPat t).isSome then
    match reSearch tocBlockPat t with
    | some (a, b) => t.take a ++ t.drop b
    | none => t
  else t

/-- Lines 71–82 of `clean_text`: whitespace normalisation (collapse space runs,
collapse 3+ newlines to two, strip every line, strip the whole text). -/
def normalizeWs (t : List Char) : List Char :=
  pyStrip (joinNl ((pySplitChar '\n' (collapseNl (collapseSpaces t))).map pyStrip))

/-- `clean_text` from `backend/text_chunker.py` (lines 15–89).  The
`try/except` wrapper is not modelled: every step of the model is total. -/
def clean_text (raw_text : List Char) : List Char :=
  if raw_text.isEmpty then [] else
  normalizeWs (removeTocBlock (reSubDel tocLinePat
    (removeFrequentLines (removePagePatterns raw_text))))

/-- Sentence-ending punctuation class `[.!?]`. -/
def isSentPunct (c : Char) : Bool := c == '.' || c == '!' || c == '?'

/-- The split pattern `([.!?])\s+(?=[A-Z])` of `split_into_sentences`
(the capture group is recovered as the first character of each span). -/
def sentSplitPat : RE := reSeq [.cls isSentPunct, reWs1, .look (.cls isUpperAZ)]

/-- Build the `re.split` output for a pattern with one single-character capture
group: pieces between matches interleaved with the captured punctuation. -/
def sentSplitPieces (s : List Char) : ℕ → List (ℕ × ℕ) → List (List Char)
  | prevEnd, [] => [s.drop prevEnd]
  | prevEnd, (a, b) :: rest =>
    spanStr s prevEnd a :: [s.getD a ' '] :: sentSplitPieces s b rest

/-- The recombination loop of `split_into_sentences` (lines 110–118):
pair each piece with the following captured punctuation. -/
def recombinePairs : List (List Char) → List (List Char)
  | a :: b :: rest =>
    (if (pyStrip (a ++ b)).isEmpty then [] else [pyStrip (a ++ b)]) ++ recombinePairs rest
  | _ => []

/-- `split_into_sentences` from `backend/text_chunker.py` (lines 92–124). -/
def split_into_sentences (text : List Char) : List (List Char) :=
  if text.isEmpty then [] else
  let sentences := sentSplitPieces text 0 (reFindAll sentSplitPat text)
  let result := recombinePairs sentences
  let result :=
    if sentences.length % 2 = 1 && !(pyStrip (sentences.getLastD [])).isEmpty then
      result ++ [pyStrip (sentences.getLastD [])]
    else result
  if result.isEmpty then [text] else result

/-- `count_words` from `backend/text_chunker.py` (lines 127–139). -/
def count_words (text : List Char) : ℕ := (pySplitWs text).length

/-- A chunk record `{"chunk_id": ..., "text": ...}`. -/
structure PyChunk where
  chunk_id : ℕ
  text : List Char
deriving DecidableEq, Repr

/-- The loop state of `chunk_text`: emitted chunks, the accumulation buffer
(`current_chunk`), its word count, and the next chunk id. -/
structure CAcc where
  chunks : List PyChunk
  current : List (List Char)
  count : ℕ
  nextId : ℕ
deriving Repr

/-- `' '.join(prev_words[-overlap_words:])`: the last `ov` words of the
previously emitted chunk text. -/
def lastWordsOverlap (prevText : List Char) (ov : ℕ) : List Char :=
  let ws := pySplitWs prevText
  joinSp (ws.drop (ws.length - ov))

/-- The body of the inner sentence loop of `chunk_text` (lines 199–221). -/
def procSentence (maxC ov : ℕ) (acc : CAcc) (sentence : List Char) : CAcc :=
  let swc := count_words sentence
  if maxC < acc.count + swc && !acc.current.isEmpty then
    let emitted := joinSp acc.current
    let newChunks := acc.chunks ++ [⟨acc.nextId, emitted⟩]
    if 0 < ov then
      let overlapText := lastWordsOverlap emitted ov
      { chunks := newChunks, current := [overlapText, sentence],
        count := count_words overlapText + swc, nextId := acc.nextId + 1 }
    else
      { chunks := newChunks, current := [sentence], count := swc,
        nextId := acc.nextId + 1 }
  else
    { acc with current := acc.current ++ [sentence], count := acc.count + swc }

/-- The body of the paragraph loop of `chunk_text` (lines 181–257). -/
def procParagraph (tgt maxC ov : ℕ) (acc : CAcc) (para : List Char) : CAcc :=
  let pwc := count_words para
  if maxC < pwc then
    let acc1 :=
      if !acc.current.isEmpty then
        { chunks := acc.chunks ++ [⟨acc.nextId, joinSp acc.current⟩],
          current := [], count := 0, nextId := acc.nextId + 1 }
      else acc
    (split_into_sentences para).foldl (procSentence maxC ov) acc1
  else
    if maxC < acc.count + pwc && !acc.current.isEmpty then
      let emitted := joinSp acc.current
      let newChunks := acc.chunks ++ [⟨acc.nextId, emitted⟩]
      if 0 < ov then
        let overlapText := lastWordsOverlap emitted ov
        { chunks := newChunks, current := [overlapText, para],
          count := count_words overlapText + pwc, nextId := acc.nextId + 1 }
      else
        { chunks := newChunks, current := [para], count := pwc,
          nextId := acc.nextId + 1 }
    else
      let acc2 := { acc with current := acc.current ++ [para],
                             count := acc.count + pwc }
      if tgt ≤ acc2.count then
        { chunks := acc2.chunks ++ [⟨acc2.nextId, joinSp acc2.current⟩],
          current := [], count := 0, nextId := acc2.nextId + 1 }
      else acc2

/-- `chunk_text` from `backend/text_chunker.py` (lines 142–273), with the word
budgets `target_chunk_size`, `min_chunk_size`, `max_chunk_size`,
`overlap_words` as explicit arguments (defaults 400/300/500/50). -/
def chunk_text (cleaned_text : List Char) (tgt mn maxC ov : ℕ) : List PyChunk :=
  if cleaned_text.isEmpty then [] else
  let paragraphs := ((pySplitPara cleaned_text).map pyStrip).filter (fun p => !p.isEmpty)
  if paragraphs.isEmpty then [] else
  let acc := paragraphs.foldl (procParagraph tgt maxC ov) ⟨[], [], 0, 1⟩
  if !acc.current.isEmpty then
    let ct := joinSp acc.current
    if mn ≤ count_words ct || acc.chunks.isEmpty then
      acc.chunks ++ [⟨acc.nextId, ct⟩]
    else acc.chunks
  else acc.chunks

/-- `clean_and_chunk` from `backend/text_chunker.py` (lines 276–324), at the
default chunking parameters. -/
def clean_and_chunk (raw_text : List Char) : List PyChunk :=
  if raw_text.isEmpty then [] else
  let cleaned_text := clean_text raw_text
  if cleaned_text.isEmpty then [] else
  chunk_text cleaned_text 400 300 500 50

/-! ### `backend/semantic_search.py` -/

/-- A retrieval result `{'chunk_id': ..., 'text': ..., 'score': ...}`
built by `search_similar_chunks` (lines 174–184). -/
structure RResult where
  chunk_id : ℕ
  text : List Char
  score : ℚ
deriving DecidableEq, Repr

/-- `np.dot` of a stored vector with the query embedding. -/
def dotQ (a b : List ℚ) : ℚ := (a.zip b).foldl (fun s p => ratAdd s (ratMul p.1 p.2)) 0

/-- The total order on indices realised by a stable ascending `np.argsort`:
by similarity, ties by original index. -/
def simRel (sims : List ℚ) (i j : ℕ) : Prop :=
  sims.getD i 0 < sims.getD j 0 ∨ (sims.getD i 0 = sims.getD j 0 ∧ i ≤ j)

instance (sims : List ℚ) : DecidableRel (simRel sims) := fun i j => by
  unfold simRel; infer_instance

instance (sims : List ℚ) : IsTotal ℕ (simRel sims) := by
  constructor
  intro i j
  rcases lt_trichotomy (sims.getD i 0) (sims.getD j 0) with h | h | h
  · exact Or.inl (Or.inl h)
  · rcases Nat.le_total i j with hij | hij
    · exact Or.inl (Or.inr ⟨h, hij⟩)
    · exact Or.inr (Or.inr ⟨h.symm, hij⟩)
  · exact Or.inr (Or.inl h)

instance (sims : List ℚ) : IsTrans ℕ (simRel sims) := by
  constructor
  intro a b c hab hbc
  rcases hab with h1 | ⟨e1, l1⟩
  · rcases hbc with h2 | ⟨e2, _⟩
    · exact Or.inl (h1.trans h2)
    · exact Or.inl (e2 ▸ h1)
  · rcases hbc with h2 | ⟨e2, l2⟩
    · exact Or.inl (e1 ▸ h2)
    · exact Or.inr ⟨e1.trans e2, l1.trans l2⟩

/-- `np.argsort(sims)`: indices sorted ascending by similarity, stable. -/
def argsortAsc (sims : List ℚ) : List ℕ :=
  List.insertionSort (simRel sims) (List.range sims.length)

/-- `search_similar_chunks` from `backend/semantic_search.py` (lines 97–193).
The external query encoder is modelled by the explicit query embedding
`qEmb` (the function's behaviour downstream of the encoder depends on the
query text only through its validation and through `qEmb`). -/
def search_similar_chunks (query : List Char) (qEmb : List ℚ)
    (vectors : List (List ℚ)) (texts : List (List Char)) (top_k : ℤ) :
    List RResult :=
  if (pyStrip query).isEmpty then [] else
  if vectors.isEmpty then [] else
  if texts.isEmpty then [] else
  if vectors.length ≠ texts.length then [] else
  if top_k ≤ 0 then [] else
  let sims := vectors.map (fun v => dotQ v qEmb)
  let k := pyMinI top_k (sims.length : ℤ)
  let top_indices := ((argsortAsc sims).reverse).take k.toNat
  top_indices.map (fun idx =>
    { chunk_id := idx + 1, text := texts.getD idx [], score := sims.getD idx 0 })

/-- A chunk record fed to `embed_chunks` by `reindex_hr_documents`:
`{'chunk_id': ..., 'text': ..., 'document_filename': ...}`. -/
structure ChunkRec where
  chunk_id : ℕ
  text : List Char
  filename : List Char
deriving DecidableEq, Repr

/-- `embed_chunks` from `backend/semantic_search.py` (lines 26–94).  The
sentence-transformers encoder is the oracle `encode` (`none` models an
import/runtime failure of the batch encode); `none` overall is the
`(None, [])` sentinel. -/
def embed_chunks (chunks : List ChunkRec)
    (encode : List (List Char) → Option (List (List ℚ))) :
    Option (List (List ℚ) × List (List Char)) :=
  if chunks.isEmpty then none else
  let texts := chunks.filterMap (fun c =>
    let t := pyStrip c.text
    if t.isEmpty then none else some t)
  if texts.isEmpty then none else
  match encode texts with
  | none => none
  | some embeddings => some (embeddings, texts)

/-! ### JSON values and `json.loads` -/

/-- A parsed JSON value (the result of a successful `json.loads`). -/
inductive JVal where
  | jnull : JVal
  | jbool : Bool → JVal
  | jnum : ℚ → JVal
  | jstr : List Char → JVal
  | jarr : List JVal → JVal
  | jobj : List (List Char × JVal) → JVal

/-- JSON insignificant whitespace. -/
def isJsonWs (c : Char) : Bool := c == ' ' || c == '\t' || c == '\n' || c == '\r'

/-- Skip JSON whitespace. -/
def skipWs (s : List Char) : List Char := s.dropWhile isJsonWs

/-- Hex digit value, if any. -/
def hexVal (c : Char) : Option ℕ :=
  let n := c.toNat
  if 48 ≤ n ∧ n ≤ 57 then some (n - 48)
  else if 97 ≤ n ∧ n ≤ 102 then some (n - 87)
  else if 65 ≤ n ∧ n ≤ 70 then some (n - 55)
  else none

/-- Parse the body of a JSON string literal (after the opening quote),
returning the decoded characters and the rest after the closing quote. -/
def parseStrBody : ℕ → List Char → List Char → Option (List Char × List Char)
  | 0, _, _ => none
  | _ + 1, _, [] => none
  | fuel + 1, acc, c :: rest =>
    if c == '"' then some (acc.reverse, rest)
    else if c == '\\' then
      match rest with
      | [] => none
      | e :: rest2 =>
        if e == '"' then parseStrBody fuel ('"' :: acc) rest2
        else if e == '\\' then parseStrBody fuel ('\\' :: acc) rest2
        else if e == '/' then parseStrBody fuel ('/' :: acc) rest2
        else if e == 'b' then parseStrBody fuel ('\x08' :: acc) rest2
        else if e == 'f' then parseStrBody fuel ('\x0c' :: acc) rest2
        else if e == 'n' then parseStrBody fuel ('\n' :: acc) rest2
        else if e == 'r' then parseStrBody fuel ('\r' :: acc) rest2
        else if e == 't' then parseStrBody fuel ('\t' :: acc) rest2
        else if e == 'u' then
          match rest2 with
          | h1 :: h2 :: h3 :: h4 :: rest3 =>
            match hexVal h1, hexVal h2, hexVal h3, hexVal h4 with
            | some a, some b, some c2, some d =>
              parseStrBody fuel
                (Char.ofNat (((a * 16 + b) * 16 + c2) * 16 + d) :: acc) rest3
            | _, _, _, _ => none
          | _ => none
        else none
    else if c.toNat < 32 then none
    else parseStrBody fuel (c :: acc) rest

/-- Read a maximal run of ASCII digits as a number with its length. -/
def readDigits : List Char → ℕ → ℕ → (ℕ × ℕ × List Char)
  | [], acc, len => (acc, len, [])
  | c :: rest, acc, len =>
    if isDigitCh c then readDigits rest (acc * 10 + (c.toNat - '0'.toNat)) (len + 1)
    else (acc, len, c :: rest)

/-- Parse a JSON number per the strict grammar (`-?(0|[1-9]\d*)(\.\d+)?([eE][+-]?\d+)?`). -/
def parseNum (s : List Char) : Option (ℚ × List Char) :=
  let (neg, s1) := match s with
    | '-' :: r => (true, r)
    | _ => (false, s)
  match s1 with
  | [] => none
  | c :: _ =>
    if !isDigitCh c then none else
    let (ip, ilen, s2) := readDigits s1 0 0
    -- leading-zero check: "0" alone, or first digit nonzero
    if ilen = 0 then none
    else if c == '0' && ilen ≠ 1 then none
    else
      let (frac, s3) := match s2 with
        | '.' :: r =>
          let (fp, flen, r2) := readDigits r 0 0
          if flen = 0 then (none, s2) else (some (mkRat fp ((10 : ℕ) ^ flen)), r2)
        | _ => (none, s2)
      match frac, s3 with
      | none, '.' :: _ => none
      | _, _ =>
        let mant : ℚ := ratAdd (ratOfNat ip) (frac.getD 0)
        let (ex, s4) : Option ℤ × List Char := match s3 with
          | 'e' :: r | 'E' :: r =>
            let (esign, r1) : ℤ × List Char := match r with
              | '+' :: r2 => (1, r2)
              | '-' :: r2 => (-1, r2)
              | _ => (1, r)
            let (ep, elen, r3) := readDigits r1 0 0
            if elen = 0 then (none, s3) else (some (esign * ep), r3)
          | _ => (none, s3)
        match ex, s3 with
        | none, 'e' :: _ => none
        | none, 'E' :: _ => none
        | _, _ =>
          let v := ratMul mant (ratPow10 (ex.getD 0))
          some (if neg then ratNeg v else v, s4)

mutual

/-- Parse one JSON value (strict `json.loads` grammar). -/
def parseVal : ℕ → List Char → Option (JVal × List Char)
  | 0, _ => none
  | fuel + 1, s =>
    let s := skipWs s
    match s with
    | [] => none
    | c :: rest =>
      if c == 't' then
        match s with
        | 't' :: 'r' :: 'u' :: 'e' :: r => some (.jbool true, r)
        | _ => none
      else if c == 'f' then
        match s with
        | 'f' :: 'a' :: 'l' :: 's' :: 'e' :: r => some (.jbool false, r)
        | _ => none
      else if c == 'n' then
        match s with
        | 'n' :: 'u' :: 'l' :: 'l' :: r => some (.jnull, r)
        | _ => none
      else if c == '"' then
        match parseStrBody (rest.length + 1) [] rest with
        | some (str, r) => some (.jstr str, r)
        | none => none
      else if c == '[' then
        match skipWs rest with
        | ']' :: r => some (.jarr [], r)
        | _ =>
          match parseArrItems fuel rest with
          | some (items, r) => some (.jarr items, r)
          | none => none
      else if c == lbrace then
        match skipWs rest with
        | r =>
          if r.headD ' ' == rbrace then some (.jobj [], r.tail)
          else
            match parseObjItems fuel rest with
            | some (items, r2) => some (.jobj items, r2)
            | none => none
      else
        match parseNum s with
        | some (q, r) => some (.jnum q, r)
        | none => none

/-- Parse `value (',' value)* ']'`. -/
def parseArrItems : ℕ → List Char → Option (List JVal × List Char)
  | 0, _ => none
  | fuel + 1, s =>
    match parseVal fuel s with
    | none => none
    | some (v, r) =>
      match skipWs r with
      | ',' :: r2 =>
        match parseArrItems fuel r2 with
        | some (items, r3) => some (v :: items, r3)
        | none => none
      | ']' :: r2 => some ([v], r2)
      | _ => none

/-- Parse `string ':' value (',' string ':' value)* '\x7d'`. -/
def parseObjItems : ℕ → List Char → Option (List (List Char × JVal) × List Char)
  | 0, _ => none
  | fuel + 1, s =>
    match skipWs s with
    | '"' :: rest =>
      match parseStrBody (rest.length + 1) [] rest with
      | none => none
      | some (key, r) =>
        match skipWs r with
        | ':' :: r2 =>
          match parseVal fuel r2 with
          | none => none
          | some (v, r3) =>
            match skipWs r3 with
            | ',' :: r4 =>
              match parseObjItems fuel r4 with
              | some (items, r5) => some ((key, v) :: items, r5)
              | none => none
            | r5 =>
              if r5.headD ' ' == rbrace then some ([(key, v)], r5.tail)
              else none
        | _ => none
    | _ => none

end

/-- `json.loads` on the model: parse one value and require only whitespace after. -/
def jsonLoads (s : List Char) : Option JVal :=
  match parseVal (s.length + 2) s with
  | some (v, rest) => if (skipWs rest).isEmpty then some v else none
  | none => none

/-- Python `dict` lookup for a parsed JSON object (later duplicate keys win). -/
def pyDictGet (kvs : List (List Char × JVal)) (key : List Char) : Option JVal :=
  (kvs.reverse.find? (fun p => p.1 == key)).map (fun p => p.2)

/-- Python truthiness `bool(v)` of a JSON value (never raises). -/
def pyTruthy : JVal → Bool
  | .jnull => false
  | .jbool b => b
  | .jnum q => decide (q ≠ 0)
  | .jstr s => !s.isEmpty
  | .jarr l => !l.isEmpty
  | .jobj l => !l.isEmpty

/-- Python `float(str)`: sign, digits with optional point and exponent. -/
def pyFloatOfStr (s : List Char) : Option ℚ :=
  let t := pyStrip s
  let (neg, t1) := match t with
    | '-' :: r => (true, r)
    | '+' :: r => (false, r)
    | _ => (false, t)
  let (ip, ilen, t2) := readDigits t1 0 0
  let (frac, flen, t3) := match t2 with
    | '.' :: r =>
      let (fp, fl, r2) := readDigits r 0 0
      ((mkRat fp ((10 : ℕ) ^ fl)), fl, r2)
    | _ => (0, 0, t2)
  if ilen = 0 && flen = 0 then none else
  let (ex, t4) : Option ℤ × List Char := match t3 with
    | 'e' :: r | 'E' :: r =>
      let (esign, r1) : ℤ × List Char := match r with
        | '+' :: r2 => (1, r2)
        | '-' :: r2 => (-1, r2)
        | _ => (1, r)
      let (ep, elen, r3) := readDigits r1 0 0
      if elen = 0 then (none, t3) else (some (esign * ep), r3)
    | _ => (none, t3)
  match ex, t3 with
  | none, 'e' :: _ => none
  | none, 'E' :: _ => none
  | _, _ =>
    if !t4.isEmpty then none else
    let v := ratMul (ratAdd (ratOfNat ip) frac) (ratPow10 (ex.getD 0))
    some (if neg then ratNeg v else v)

/-- Python `float(v)` on a JSON value: `none` models `ValueError`/`TypeError`. -/
def pyFloat : JVal → Option ℚ
  | .jnum q => some q
  | .jbool b => some (if b then 1 else 0)
  | .jstr s => pyFloatOfStr s
  | _ => none

/-! ### `backend/services/hr_chat_llm.py` -/

/-- The structured response dict `{"answer", "confidence", "needsEscalation",
"reason"}` — every return of `safe_parse_llm_json` / `generate_response`
constructs a dict with exactly these four keys at these types. -/
structure Envelope where
  answer : List Char
  confidence : ℚ
  needsEscalation : Bool
  reason : List Char
deriving DecidableEq, Repr

/-- `_get_fallback_response` (lines 104–121). -/
def get_fallback_response (reason : List Char) : Envelope :=
  ⟨pys "Unable to confidently answer based on HR documents.", 0, true, reason⟩

/-- The markdown code-fence stripping shared by `safe_parse_llm_json`
(lines 678–690) and `_extract_json_from_text` (lines 808–819). -/
def stripFences (t : List Char) : List Char :=
  let tc := pyStrip t
  let tc :=
    if pyStartsWith (pys "```json") tc then pyStrip (tc.drop 7)
    else if pyStartsWith (pys "```") tc then pyStrip (tc.drop 3)
    else tc
  if pyEndsWith (pys "```") tc then pyStrip (tc.take (tc.length - 3)) else tc

/-- Brace counting of `_extract_json_from_text` method 1 (lines 824–833):
walk from the first `\x7b`, return the index of the balancing `\x7d`. -/
def braceEndGo : List Char → ℕ → ℕ → Option ℕ
  | [], _, _ => none
  | c :: rest, i, cnt =>
    if c == lbrace then braceEndGo rest (i + 1) (cnt + 1)
    else if c == rbrace then
      if cnt - 1 = 0 then some i else braceEndGo rest (i + 1) (cnt - 1)
    else braceEndGo rest (i + 1) cnt

/-- The regex `\x7b[^\x7b\x7d]*(?:\x7b[^\x7b\x7d]*\x7d[^\x7b\x7d]*)*\x7d`
of `_extract_json_from_text` method 2 (line 848). -/
def braceRegex : RE :=
  let lb : RE := .cls (fun c => c == lbrace)
  let rb : RE := .cls (fun c => c == rbrace)
  let nb : RE := .starG (.cls (fun c => c != lbrace && c != rbrace))
  reSeq [lb, nb, .starG (reSeq [lb, nb, rb, nb]), rb]

/-- Method 2 and method 3 of `_extract_json_from_text` (lines 846–872). -/
def extractMethods23 (text_clean : List Char) : Option (List Char) :=
  let cands := (reFindAll braceRegex text_clean).map
    (fun p => pyStrip (spanStr text_clean p.1 p.2))
  match cands.find? (fun c => (jsonLoads c).isSome) with
  | some c => some c
  | none => if (jsonLoads text_clean).isSome then some text_clean else none

/-- `_extract_json_from_text` (lines 789–872). -/
def extract_json_from_text (text : List Char) : Option (List Char) :=
  if text.isEmpty then none else
  let text_clean := stripFences text
  match text_clean.findIdx? (fun c => c == lbrace) with
  | some bs =>
    match braceEndGo (text_clean.drop bs) bs 0 with
    | some be =>
      let cand := pyStrip (spanStr text_clean bs (be + 1))
      if (jsonLoads cand).isSome then some cand else extractMethods23 text_clean
    | none => extractMethods23 text_clean
  | none => extractMethods23 text_clean

/-- The plain-text fallback dict of `safe_parse_llm_json` (lines 710–715,
758–763, 770–775, 781–786): entire cleaned text as answer, clamped baseline
as confidence, escalation from the unclamped baseline. -/
def plainTextEnvelope (text_clean : List Char) (default_confidence : ℚ) : Envelope :=
  ⟨text_clean, clamp01 default_confidence, decide (default_confidence < mkRat 3 5), []⟩

/-- The field extraction of `safe_parse_llm_json` for a parsed JSON object
(lines 717–751): `answer` with string check and fallback to the cleaned
text, `confidence` with float coercion, clamping and baseline default,
`needsEscalation` from the supplied field (Python truthiness) or the
threshold rule, `reason` with string check. -/
def parseObjEnvelope (kvs : List (List Char × JVal)) (text_clean : List Char)
    (default_confidence : ℚ) : Envelope :=
  let answer :=
    match pyDictGet kvs (pys "answer") with
    | some (.jstr s) => if s.isEmpty then text_clean else s
    | _ => text_clean
  let confidence :=
    match pyDictGet kvs (pys "confidence") with
    | none => clamp01 default_confidence
    | some v =>
      match pyFloat v with
      | some q => clamp01 q
      | none => clamp01 default_confidence
  let needs_escalation :=
    match pyDictGet kvs (pys "needsEscalation") with
    | none => decide (confidence < mkRat 3 5)
    | some v => pyTruthy v
  let reason :=
    match pyDictGet kvs (pys "reason") with
    | some (.jstr s) => s
    | _ => []
  ⟨pyStrip answer, round2 confidence, needs_escalation, pyStrip reason⟩

/-- The `isinstance(parsed, dict)` dispatch of `safe_parse_llm_json`
(lines 707–751). -/
def parsedEnvelope (parsed : JVal) (text_clean : List Char)
    (default_confidence : ℚ) : Envelope :=
  match parsed with
  | .jobj kvs => parseObjEnvelope kvs text_clean default_confidence
  | _ => plainTextEnvelope text_clean default_confidence

/-- `safe_parse_llm_json` from `backend/services/hr_chat_llm.py`
(lines 646–786). -/
def safe_parse_llm_json (response_text : List Char) (default_confidence : ℚ) :
    Envelope :=
  if response_text.isEmpty then
    ⟨pys "Unable to generate a response. Please contact HR for assistance.",
     0, true, pys "Empty or invalid LLM response"⟩
  else
  let text_clean := stripFences response_text
  match extract_json_from_text text_clean with
  | none => plainTextEnvelope text_clean default_confidence
  | some json_text =>
    match jsonLoads json_text with
    | none => plainTextEnvelope text_clean default_confidence
    | some parsed => parsedEnvelope parsed text_clean default_confidence

/-- `_ensure_valid_response` (lines 124–168), on an argument that is already a
four-field dict (the only way it is reached from `generate_response`). -/
def ensure_valid_response (e : Envelope) : Envelope :=
  let answer :=
    if e.answer.isEmpty then pys "Unable to confidently answer based on HR documents."
    else e.answer
  let confidence := clamp01 e.confidence
  let reason :=
    if e.reason.isEmpty then pys "LLM response unavailable or invalid" else e.reason
  ⟨pyStrip answer, round2 confidence, e.needsEscalation, pyStrip reason⟩

/-- The canonical "no information" envelope of `generate_response`
(lines 202–219). -/
def noInfoEnvelope (reason : List Char) : Envelope :=
  ⟨pys "I don\x27t have enough information in the HR documents to answer that question. Please contact HR for assistance.",
   0, true, reason⟩

/-- The "trouble generating" envelope of `generate_response` (lines 230–258). -/
def troubleEnvelope (reason : List Char) : Envelope :=
  ⟨pys "I\x27m having trouble generating a response right now. Please contact HR for assistance.",
   0, true, reason⟩

/-- `generate_response` from `backend/services/hr_chat_llm.py` (lines
171–331).  The provider call `_call_llm` is the explicit outcome `llmOut`
(`none` models a `None` return, i.e. provider failure); similarity scores
may be absent (`none` models the `None` default). -/
def generate_response (question : List Char) (document_texts : List (List Char))
    (similarity_scores : Option (List ℚ)) (llmOut : Option (List Char)) :
    Envelope :=
  if (pyStrip question).isEmpty then
    get_fallback_response (pys "Invalid question provided")
  else if document_texts.isEmpty then
    noInfoEnvelope (pys "No relevant HR documents found")
  else
  let valid_docs := document_texts.filterMap (fun d =>
    if (pyStrip d).isEmpty then none else some (pyStrip d))
  if valid_docs.isEmpty then
    noInfoEnvelope (pys "No valid document content available")
  else
  match llmOut with
  | none => troubleEnvelope (pys "LLM did not return a response")
  | some resp =>
    let stripped := pyStrip resp
    if stripped.isEmpty then troubleEnvelope (pys "LLM returned empty response")
    else
      let computed_confidence : ℚ :=
        match similarity_scores with
        | some (s :: rest) =>
          clamp01 (ratDivQ (listSum (s :: rest)) (ratOfNat (s :: rest).length))
        | _ => mkRat 3 5
      let parsed := safe_parse_llm_json stripped computed_confidence
      let reason :=
        if parsed.reason.isEmpty then
          if mkRat 4 5 ≤ parsed.confidence then
            pys "Answer is explicitly stated in the HR documents"
          else if mkRat 1 2 ≤ parsed.confidence then
            pys "Answer is partially stated in the HR documents or requires interpretation"
          else
            pys "Answer is unclear or missing from the HR documents"
        else parsed.reason
      ensure_valid_response
        ⟨parsed.answer, round2 parsed.confidence, parsed.needsEscalation, reason⟩

/-! ### `backend/answer_generator.py` -/

/-- The `missing_indicators` list shared by `_assess_answer_quality`
(lines 584–592) and `_calculate_confidence` (lines 636–644). -/
def missing_indicators : List (List Char) :=
  [pys "don\x27t have", pys "not in the", pys "not available", pys "contact hr",
   pys "not found", pys "unable to find", pys "no information"]

/-- `any(indicator in answer_lower for indicator in missing_indicators)`. -/
def hasMissingIndicator (answer : List Char) : Bool :=
  missing_indicators.any (fun ind => containsSub ind (pyLower answer))

/-- `_calculate_confidence` from `backend/answer_generator.py`
(lines 612–661). -/
def calculate_confidence (avg_similarity : ℚ) (answer query : List Char) : ℚ :=
  let answer_lower := pyLower answer
  let confidence :=
    if hasMissingIndicator answer then pyMin avg_similarity (mkRat 2 5)
    else avg_similarity
  let query_words := (pySplitWs (pyLower query)).dedup
  let answer_words := (pySplitWs answer_lower).dedup
  let keyword_overlap : ℚ :=
    ratDivQ (ratOfNat (query_words.filter (fun w => w ∈ answer_words)).length)
      (ratOfNat (pyMaxN query_words.length 1))
  let confidence :=
    if mkRat 1 2 < keyword_overlap && 100 < answer.length then
      pyMin (ratAdd confidence (mkRat 1 10)) 1
    else confidence
  round2 (clamp01 confidence)

/-- `_generate_reason` from `backend/answer_generator.py` (lines 664–685). -/
def generate_reason (confidence avg_similarity : ℚ) (answer : List Char) : List Char :=
  if mkRat 4 5 ≤ confidence then
    pys "Answer is clearly stated in the HR documents"
  else if mkRat 1 2 ≤ confidence then
    pys "Answer is partially covered in the HR documents or requires interpretation"
  else if avg_similarity < mkRat 1 2 then
    pys "Low similarity between question and available documents"
  else if containsSub (pys "don\x27t have") (pyLower answer) ||
          containsSub (pys "not in") (pyLower answer) then
    pys "Information not found in the HR documents"
  else
    pys "Answer quality is uncertain or incomplete"

/-- `_assess_answer_quality` from `backend/answer_generator.py`
(lines 569–609); the quality tag is one of `"none"`, `"partial"`, `"clear"`. -/
def assess_answer_quality (answer query : List Char) : List Char :=
  if hasMissingIndicator answer then pys "none"
  else if (pyStrip answer).length < 50 then pys "partial"
  else
    let query_words := (pySplitWs (pyLower query)).dedup
    let answer_words := (pySplitWs (pyLower answer)).dedup
    let overlap := (query_words.filter (fun w => w ∈ answer_words)).length
    if ratOfNat overlap < ratMul (ratOfNat query_words.length) (mkRat 3 10) then
      pys "partial"
    else pys "clear"

/-- The canonical "no information" answer of `answer_generator.py`
(lines 290, 352, 551). -/
def canonicalNoInfo : List Char :=
  pys "I don\x27t have enough information in the HR documents to answer that question. Please contact HR for assistance."

/-- `_generate_fallback_answer_strict` (lines 538–566): `(answer, quality)`. -/
def generate_fallback_answer_strict (context_chunks : List (List Char)) :
    List Char × List Char :=
  match context_chunks with
  | [] => (canonicalNoInfo, pys "none")
  | most_relevant :: rest =>
    if !rest.isEmpty then
      (pys "Based on the HR documents:\n\n" ++ most_relevant ++
        pys "\n\nNote: If this doesn\x27t fully answer your question, please contact HR for complete details.",
       pys "partial")
    else
      (pys "Based on the HR documents:\n\n" ++ most_relevant ++
        pys "\n\nIf this doesn\x27t fully answer your question, please contact HR for assistance.",
       pys "partial")

/-- `_generate_answer_strict` (lines 338–367): the LLM call
`_generate_with_llm_strict` is the explicit outcome `llmOut` (`none` models
an unavailable provider or any caught exception; a successful call returns a
stripped non-empty string). -/
def generate_answer_strict (query : List Char) (context_chunks : List (List Char))
    (llmOut : Option (List Char)) : List Char × List Char :=
  if context_chunks.isEmpty then (canonicalNoInfo, pys "none")
  else
    match llmOut with
    | some answer =>
      if !answer.isEmpty then (answer, assess_answer_quality answer query)
      else generate_fallback_answer_strict context_chunks
    | none => generate_fallback_answer_strict context_chunks

/-- A source entry `{'chunk_id': ..., 'score': ...}` collected by
`generate_answer_with_metadata`; `chunkId = none` models the `'unknown'`
placeholder. -/
structure SourceRec where
  chunkId : Option ℤ
  score : ℚ
deriving DecidableEq, Repr

/-- An element of the `context_chunks` argument of
`generate_answer_with_metadata`: either a dict (with optional `chunk_id`
and `score` keys) or a bare string. -/
inductive CtxIn where
  | d : (text : List Char) → (chunkId : Option ℤ) → (score : Option ℚ) → CtxIn
  | s : (t : List Char) → CtxIn

/-- The envelope returned by `generate_answer_with_metadata`, with sources. -/
structure EnvelopeS where
  answer : List Char
  confidence : ℚ
  needsEscalation : Bool
  reason : List Char
  sources : List SourceRec
deriving DecidableEq, Repr

/-- `generate_answer_with_metadata` from `backend/answer_generator.py`
(lines 274–335). -/
def generate_answer_with_metadata (query : List Char)
    (context_chunks : List CtxIn) (llmOut : Option (List Char)) : EnvelopeS :=
  if context_chunks.isEmpty then
    ⟨canonicalNoInfo, 0, true, pys "No relevant documents found", []⟩
  else
  let pairs := context_chunks.filterMap (fun ch =>
    match ch with
    | .d text cid sc =>
      if text.isEmpty then none else some (text, SourceRec.mk cid (sc.getD 0))
    | .s t => some (t, SourceRec.mk none 0))
  let texts := pairs.map (fun p => p.1)
  let sources := pairs.map (fun p => p.2)
  let answer_result := generate_answer_strict query texts llmOut
  let scores := sources.map (fun s => s.score)
  let avg_similarity :=
    if !scores.isEmpty then ratDivQ (listSum scores) (ratOfNat scores.length) else 0
  let confidence := calculate_confidence avg_similarity answer_result.1 query
  let needs_escalation := decide (confidence < mkRat 3 5)
  let reason := generate_reason confidence avg_similarity answer_result.1
  ⟨answer_result.1, confidence, needs_escalation, reason, sources⟩

/-! ### `backend/app.py`: the module-level index and `reindex_hr_documents` -/

/-- One entry of `_chunks_metadata` (lines 380–386). -/
structure MetaEntry where
  chunkId : ℕ
  filename : List Char
  origText : List Char
deriving DecidableEq, Repr

/-- The module-level index state of `backend/app.py` (lines 90–93). -/
structure IndexState where
  embeddings : Option (List (List ℚ))
  chunkTexts : List (List Char)
  chunksMetadata : List MetaEntry
  loaded : Bool
deriving DecidableEq, Repr

/-- The sequence of separate global assignments performed by a successful
reindex (lines 377–387): `_embeddings`, then `_chunk_texts`, then
`_chunks_metadata` (reset and per-entry appends), then `_embeddings_loaded`.
Each list element is one atomic store; the sequence as a whole is not. -/
def reindexUpdateSteps (embs : List (List ℚ)) (texts : List (List Char))
    (metas : List MetaEntry) : List (IndexState → IndexState) :=
  [fun st => { st with embeddings := some embs },
   fun st => { st with chunkTexts := texts },
   fun st => { st with chunksMetadata := [] }] ++
  metas.map (fun m => fun st =>
    { st with chunksMetadata := st.chunksMetadata ++ [m] }) ++
  [fun st => { st with loaded := true }]

/-- Run a sequence of stores on the index state. -/
def applySteps (steps : List (IndexState → IndexState)) (st : IndexState) :
    IndexState :=
  steps.foldl (fun s f => f s) st

/-- Per-document chunk collection of `reindex_hr_documents` (lines 329–363):
each PDF either fails to extract (`none`, covering both empty text and a
per-document exception, which `continue`) or yields raw text that is cleaned
and chunked; chunk ids are renumbered by the running counter. -/
def reindexChunks : List (List Char × Option (List Char)) → ℕ → List ChunkRec
  | [], _ => []
  | (fname, raw) :: rest, counter =>
    match raw with
    | none => reindexChunks rest counter
    | some raw_text =>
      if (pyStrip raw_text).isEmpty then reindexChunks rest counter
      else
        let chunks := clean_and_chunk raw_text
        if chunks.isEmpty then reindexChunks rest counter
        else
          (chunks.enum.map (fun p => ChunkRec.mk (counter + p.1) p.2.text fname)) ++
            reindexChunks rest (counter + chunks.length)

/-- `reindex_hr_documents` from `backend/app.py` (lines 277–398).  The
filesystem scan is the explicit list `pdfFiles` of `(filename, extraction
outcome)`; `modsAvail` models the import guard of line 299; the encoder
oracle is as in `embed_chunks`.  Returns the Python `bool` and the resulting
global state. -/
def reindex_hr_documents (modsAvail : Bool)
    (pdfFiles : List (List Char × Option (List Char)))
    (encode : List (List Char) → Option (List (List ℚ)))
    (st : IndexState) : Bool × IndexState :=
  if !modsAvail then (false, st)
  else if pdfFiles.isEmpty then (false, st)
  else
    let all_chunks := reindexChunks pdfFiles 1
    if all_chunks.isEmpty then (false, st)
    else
      match embed_chunks all_chunks encode with
      | none => (false, st)
      | some (embeddings_array, chunk_texts) =>
        let metas := all_chunks.map (fun c =>
          MetaEntry.mk c.chunk_id c.filename c.text)
        (true, applySteps (reindexUpdateSteps embeddings_array chunk_texts metas) st)

/-! ## Bridge lemmas for the kernel-evaluable arithmetic -/

/-- `mkRat` as a division of casts. -/
theorem mkRat_eq_divq (n : ℤ) (d : ℕ) : mkRat n d = (n : ℚ) / (d : ℚ) := by
  rw [Rat.mkRat_eq_divInt, Rat.divInt_eq_div]
  norm_num

/-- The cast of a denominator is nonzero. -/
theorem den_cast_ne (a : ℚ) : ((a.den : ℚ)) ≠ 0 := by
  exact_mod_cast a.den_nz

/-- `ratMul` is multiplication. -/
theorem ratMul_eq (a b : ℚ) : ratMul a b = a * b := by
  unfold ratMul
  rw [mkRat_eq_divq]
  push_cast
  conv_rhs => rw [← Rat.num_div_den a, ← Rat.num_div_den b]
  rw [div_mul_div_comm]

/-- `ratAdd` is addition. -/
theorem ratAdd_eq (a b : ℚ) : ratAdd a b = a + b := by
  unfold ratAdd
  rw [mkRat_eq_divq]
  push_cast
  conv_rhs => rw [← Rat.num_div_den a, ← Rat.num_div_den b]
  rw [div_add_div _ _ (den_cast_ne a) (den_cast_ne b),
    mul_comm ((a.den : ℚ)) ((b.num : ℚ))]

/-- `ratSub` is subtraction. -/
theorem ratSub_eq (a b : ℚ) : ratSub a b = a - b := by
  unfold ratSub
  rw [mkRat_eq_divq]
  push_cast
  conv_rhs => rw [← Rat.num_div_den a, ← Rat.num_div_den b]
  rw [div_sub_div _ _ (den_cast_ne a) (den_cast_ne b),
    mul_comm ((a.den : ℚ)) ((b.num : ℚ))]

/-- `ratNeg` is negation. -/
theorem ratNeg_eq (a : ℚ) : ratNeg a = -a := by
  unfold ratNeg
  rw [mkRat_eq_divq]
  push_cast
  rw [neg_div]
  rw [Rat.num_div_den]

/-- `ratInv` is the field inverse. -/
theorem ratInv_eq (a : ℚ) : ratInv a = a⁻¹ := by
  unfold ratInv
  rw [Rat.inv_def', Rat.divInt_eq_div, mkRat_eq_divq]
  rcases lt_trichotomy a.num 0 with h | h | h
  · rw [if_pos h]
    push_cast [Int.cast_natAbs]
    rw [abs_of_neg (show ((a.num : ℚ)) < 0 by exact_mod_cast h), neg_div_neg_eq]
  · have ha : a = 0 := Rat.num_eq_zero.mp h
    subst ha
    norm_num
  · rw [if_neg (by omega)]
    push_cast [Int.cast_natAbs]
    rw [abs_of_pos (show (0 : ℚ) < ((a.num : ℚ)) by exact_mod_cast h)]

/-- `ratDivQ` is division. -/
theorem ratDivQ_eq (a b : ℚ) : ratDivQ a b = a / b := by
  unfold ratDivQ
  rw [ratMul_eq, ratInv_eq, div_eq_mul_inv]

/-- `ratOfNat` is the cast. -/
theorem ratOfNat_eq (n : ℕ) : ratOfNat n = (n : ℚ) := by
  unfold ratOfNat
  rw [mkRat_eq_divq]
  norm_num

/-- `pyMin` is `min`. -/
theorem pyMin_eq (a b : ℚ) : pyMin a b = min a b := (min_def a b).symm

/-- `pyMax` is `max`. -/
theorem pyMax_eq (a b : ℚ) : pyMax a b = max a b := (max_def a b).symm

/-- `Rat.floor` agrees with the `⌊·⌋` of the `FloorRing` instance. -/
theorem rat_floor_eq_floor (q : ℚ) : Rat.floor q = ⌊q⌋ := by
  rw [Rat.floor_def, Rat.floor_def']

/-- `clamp01` is nonnegative. -/
theorem clamp01_nonneg (q : ℚ) : 0 ≤ clamp01 q := by
  unfold clamp01
  rw [pyMax_eq]
  exact le_max_left 0 _

/-- `clamp01` is at most one. -/
theorem clamp01_le_one (q : ℚ) : clamp01 q ≤ 1 := by
  unfold clamp01
  rw [pyMax_eq, pyMin_eq]
  exact max_le (by norm_num) (min_le_left 1 q)

/-- `clamp01` preserves upper bounds that are nonnegative. -/
theorem clamp01_le {q c : ℚ} (h : q ≤ c) (hc : 0 ≤ c) : clamp01 q ≤ c := by
  unfold clamp01
  rw [pyMax_eq, pyMin_eq]
  exact max_le hc (le_trans (min_le_right 1 q) h)

/-- `mkRat 1 2` is one half. -/
theorem mkRat_one_two : mkRat 1 2 = (1 : ℚ)/2 := by
  rw [mkRat_eq_divq]; norm_num

/-- `halfEven` respects integer upper bounds. -/
theorem halfEven_le_int {q : ℚ} {m : ℤ} (h : q ≤ (m : ℚ)) : halfEven q ≤ m := by
  unfold halfEven
  simp only [ratSub_eq, Rat.mkRat_one, rat_floor_eq_floor]
  have hfl : ⌊q⌋ ≤ m := by
    calc ⌊q⌋ ≤ ⌊(m : ℚ)⌋ := Int.floor_le_floor h
      _ = m := Int.floor_intCast m
  have key : (1/2 : ℚ) ≤ q - (⌊q⌋ : ℚ) → ⌊q⌋ + 1 ≤ m := by
    intro hhalf
    have hq : ((⌊q⌋ : ℤ) : ℚ) < (m : ℚ) := lt_of_lt_of_le (by linarith) h
    exact_mod_cast Int.lt_iff_add_one_le.mp (by exact_mod_cast hq)
  rw [mkRat_one_two]
  split_ifs with h1 h2
  · exact hfl
  · exact key (le_of_lt h2)
  · exact hfl
  · exact key (le_of_not_lt h1)

/-- `halfEven` respects integer lower bounds. -/
theorem int_le_halfEven {q : ℚ} {m : ℤ} (h : (m : ℚ) ≤ q) : m ≤ halfEven q := by
  unfold halfEven
  simp only [ratSub_eq, Rat.mkRat_one, rat_floor_eq_floor]
  have hfl : m ≤ ⌊q⌋ := Int.le_floor.mpr h
  split_ifs <;> omega

/-- `round2` respects upper bounds that are integer hundredths. -/
theorem round2_le_hundredth {q : ℚ} {m : ℤ} (h : q ≤ mkRat m 100) :
    round2 q ≤ mkRat m 100 := by
  have h' : q ≤ (m : ℚ)/100 := by
    rw [mkRat_eq_divq] at h
    exact_mod_cast h
  have h100 : q * 100 ≤ (m : ℚ) := by linarith
  have hEc : ((halfEven (q * 100) : ℤ) : ℚ) ≤ (m : ℚ) :=
    Int.cast_le.mpr (halfEven_le_int h100)
  unfold round2
  rw [ratMul_eq, mkRat_eq_divq, mkRat_eq_divq]
  push_cast
  linarith

/-- `round2` respects lower bounds that are integer hundredths. -/
theorem hundredth_le_round2 {q : ℚ} {m : ℤ} (h : mkRat m 100 ≤ q) :
    mkRat m 100 ≤ round2 q := by
  have h' : (m : ℚ)/100 ≤ q := by
    rw [mkRat_eq_divq] at h
    exact_mod_cast h
  have h100 : (m : ℚ) ≤ q * 100 := by linarith
  have hEc : (m : ℚ) ≤ ((halfEven (q * 100) : ℤ) : ℚ) :=
    Int.cast_le.mpr (int_le_halfEven h100)
  unfold round2
  rw [ratMul_eq, mkRat_eq_divq, mkRat_eq_divq]
  push_cast
  linarith

/-- `mkRat 0 100` is zero and `mkRat 100 100` is one. -/
theorem mkRat_zero_hundred : mkRat (0 : ℤ) 100 = (0 : ℚ) ∧ mkRat (100 : ℤ) 100 = (1 : ℚ) := by
  constructor <;> (rw [mkRat_eq_divq]; norm_num)

/-- `round2` maps the unit interval into the unit interval. -/
theorem round2_mem_unit {q : ℚ} (h0 : 0 ≤ q) (h1 : q ≤ 1) :
    0 ≤ round2 q ∧ round2 q ≤ 1 := by
  constructor
  · have := hundredth_le_round2 (q := q) (m := 0)
      (by rw [mkRat_zero_hundred.1]; exact h0)
    rw [mkRat_zero_hundred.1] at this
    exact this
  · have := round2_le_hundredth (q := q) (m := 100)
      (by rw [mkRat_zero_hundred.2]; exact h1)
    rw [mkRat_zero_hundred.2] at this
    exact this

/-! ## Length bounds for the cleaning pipeline (claim C7 support) -/

/-- The matcher hands its continuation a position no smaller than the start
position: a match never ends before it begins. -/
theorem matchE_mono : ∀ (f : ℕ) (r : RE) (s : List Char) (i : ℕ)
    (k : ℕ → Option ℕ) (res : ℕ), matchE f r s i k = some res →
    ∃ j, i ≤ j ∧ k j = some res := by
  intro f
  induction f with
  | zero => intro r s i k res h; simp [matchE] at h
  | succ f ih =>
    intro r s i k res h
    cases r with
    | eps => exact ⟨i, le_refl i, h⟩
    | cls p =>
      simp only [matchE] at h
      split at h
      · exact ⟨i + 1, Nat.le_succ i, h⟩
      · exact absurd h (by simp)
    | seq a b =>
      simp only [matchE] at h
      obtain ⟨j, hij, hj⟩ := ih a s i _ res h
      obtain ⟨j2, hj2, hk⟩ := ih b s j k res hj
      exact ⟨j2, le_trans hij hj2, hk⟩
    | starG a =>
      simp only [matchE] at h
      cases hInner : matchE f a s i
          (fun j => if i < j then matchE f (.starG a) s j k else none) with
      | some e =>
        rw [hInner] at h
        obtain ⟨j, hij, hj⟩ := ih a s i _ e hInner
        rw [Option.some_inj] at h
        subst h
        by_cases hlt : i < j
        · rw [if_pos hlt] at hj
          obtain ⟨j2, hj2, hk⟩ := ih (.starG a) s j k e hj
          exact ⟨j2, le_trans hij hj2, hk⟩
        · rw [if_neg hlt] at hj
          exact absurd hj (by simp)
      | none =>
        rw [hInner] at h
        exact ⟨i, le_refl i, h⟩
    | starL a =>
      simp only [matchE] at h
      cases hk : k i with
      | some e =>
        rw [hk] at h
        simp only [Option.some.injEq] at h
        subst h
        exact ⟨i, le_refl i, hk⟩
      | none =>
        rw [hk] at h
        obtain ⟨j, hij, hj⟩ := ih a s i _ res h
        by_cases hlt : i < j
        · rw [if_pos hlt] at hj
          obtain ⟨j2, hj2, hk2⟩ := ih (.starL a) s j k res hj
          exact ⟨j2, le_trans hij hj2, hk2⟩
        · rw [if_neg hlt] at hj
          exact absurd hj (by simp)
    | look a =>
      simp only [matchE] at h
      cases hInner : matchE f a s i some with
      | some e => rw [hInner] at h; exact ⟨i, le_refl i, h⟩
      | none => rw [hInner] at h; exact absurd h (by simp)
    | wb =>
      simp only [matchE] at h
      split at h
      · exact ⟨i, le_refl i, h⟩
      · exact absurd h (by simp)
    | bolM =>
      simp only [matchE] at h
      split at h
      · exact ⟨i, le_refl i, h⟩
      · exact absurd h (by simp)
    | eolM =>
      simp only [matchE] at h
      split at h
      · exact ⟨i, le_refl i, h⟩
      · exact absurd h (by simp)
    | eolS =>
      simp only [matchE] at h
      split at h
      · exact ⟨i, le_refl i, h⟩
      · exact absurd h (by simp)

/-- A search result is a well-formed span. -/
theorem searchGo_span (r : RE) (s : List Char) : ∀ (f p a b : ℕ),
    searchGo r s f p = some (a, b) → a ≤ b := by
  intro f
  induction f with
  | zero => intro p a b h; simp [searchGo] at h
  | succ f ih =>
    intro p a b h
    simp only [searchGo] at h
    split at h
    next e heq =>
      obtain ⟨j, hpj, hj⟩ := matchE_mono _ _ _ _ _ _ heq
      simp only [Option.some.injEq] at hj
      simp only [Option.some.injEq, Prod.mk.injEq] at h
      omega
    next heq =>
      split at h
      · exact ih (p + 1) a b h
      · exact absurd h (by simp)

/-- `reSearch` spans are well formed. -/
theorem reSearch_span {r : RE} {s : List Char} {a b : ℕ}
    (h : reSearch r s = some (a, b)) : a ≤ b :=
  searchGo_span r s _ 0 a b h

/-- Deleting matched spans never lengthens the text. -/
theorem subDelGo_length (r : RE) (s : List Char) : ∀ (f p : ℕ),
    (subDelGo r s f p).length ≤ s.length - p := by
  intro f
  induction f with
  | zero => intro p; simp [subDelGo]
  | succ f ih =>
    intro p
    simp only [subDelGo]
    by_cases hp : p < s.length
    · rw [if_pos hp]
      split
      next e heq =>
        split
        next hpe =>
          have := ih e
          omega
        next hpe =>
          have := ih (p + 1)
          simp only [List.length_cons]
          omega
      next heq =>
        have := ih (p + 1)
        simp only [List.length_cons]
        omega
    · rw [if_neg hp]
      simp

/-- `reSubDel` never lengthens the text. -/
theorem reSubDel_length (r : RE) (s : List Char) :
    (reSubDel r s).length ≤ s.length := by
  have := subDelGo_length r s (s.length + 1) 0
  simpa [reSubDel] using this

/-- Prepending a part never shortens a join. -/
theorem joinSep_le_cons (sep x : List Char) (l : List (List Char)) :
    (joinSep sep l).length ≤ (joinSep sep (x :: l)).length := by
  cases l with
  | nil => simp [joinSep]
  | cons y t =>
    simp only [joinSep, List.length_append]
    omega

/-- Joining a sublist of the parts never lengthens the join. -/
theorem joinSep_sublist_le (sep : List Char) {l₁ l₂ : List (List Char)}
    (h : List.Sublist l₁ l₂) : (joinSep sep l₁).length ≤ (joinSep sep l₂).length := by
  induction h with
  | slnil => exact le_refl _
  | cons x h ih => exact le_trans ih (joinSep_le_cons sep x _)
  | cons₂ x h ih =>
    rename_i l₁ l₂
    cases l₁ with
    | nil =>
      cases l₂ with
      | nil => exact le_refl _
      | cons y t =>
        simp only [joinSep, List.length_append]
        omega
    | cons z zs =>
      have hne : l₂ ≠ [] := by
        intro hc
        subst hc
        exact absurd (List.Sublist.length_le h) (by simp)
      cases l₂ with
      | nil => exact absurd rfl hne
      | cons w ws =>
        simp only [joinSep, List.length_append]
        omega

/-- Joining shortened parts never lengthens the join. -/
theorem joinSep_map_le (sep : List Char) (f : List Char → List Char)
    (hf : ∀ x, (f x).length ≤ x.length) : ∀ l : List (List Char),
    (joinSep sep (l.map f)).length ≤ (joinSep sep l).length := by
  intro l
  induction l with
  | nil => simp
  | cons x t ih =>
    cases t with
    | nil => simpa [joinSep] using hf x
    | cons y ys =>
      simp only [List.map_cons, joinSep, List.length_append] at ih ⊢
      have := hf x
      omega

/-- `pySplitChar` never returns the empty list of parts. -/
theorem pySplitChar_ne_nil (c : Char) : ∀ s : List Char, pySplitChar c s ≠ [] := by
  intro s
  induction s with
  | nil => simp [pySplitChar]
  | cons a t ih =>
    simp only [pySplitChar]
    cases h2 : pySplitChar c t with
    | nil => exact absurd h2 ih
    | cons hh tt => by_cases hac : a = c <;> simp [hac]

/-- Splitting on a character and re-joining with it reconstructs the text. -/
theorem joinSep_splitChar (c : Char) : ∀ s : List Char,
    joinSep [c] (pySplitChar c s) = s := by
  intro s
  induction s with
  | nil => simp [pySplitChar, joinSep]
  | cons a t ih =>
    cases hsp : pySplitChar c t with
    | nil => exact absurd hsp (pySplitChar_ne_nil c t)
    | cons h2 t2 =>
      rw [hsp] at ih
      simp only [pySplitChar, hsp]
      by_cases hc : a == c
      · simp only [if_pos hc]
        have hac : a = c := eq_of_beq hc
        subst hac
        simp only [joinSep]
        simp [ih]
      · simp only [if_neg hc]
        cases t2 with
        | nil =>
          simp only [joinSep] at ih ⊢
          rw [ih]
        | cons z zs =>
          simp only [joinSep] at ih ⊢
          rw [← ih]
          simp

/-- `pyStrip` never lengthens the text. -/
theorem pyStrip_length (s : List Char) : (pyStrip s).length ≤ s.length := by
  unfold pyStrip
  calc ((s.dropWhile isPySpace).reverse.dropWhile isPySpace).reverse.length
      = ((s.dropWhile isPySpace).reverse.dropWhile isPySpace).length := by
        rw [List.length_reverse]
    _ ≤ (s.dropWhile isPySpace).reverse.length :=
        (List.dropWhile_sublist _).length_le
    _ = (s.dropWhile isPySpace).length := by rw [List.length_reverse]
    _ ≤ s.length := (List.dropWhile_sublist _).length_le

/-- Collapsing space runs never lengthens the text. -/
theorem collapseSpacesGo_length : ∀ (s : List Char) (b : Bool),
    (collapseSpacesGo s b).length ≤ s.length := by
  intro s
  induction s with
  | nil => intro b; simp [collapseSpacesGo]
  | cons c t ih =>
    intro b
    simp only [collapseSpacesGo]
    split
    · split
      · have := ih true
        simp only [List.length_cons]
        omega
      · have := ih true
        simp only [List.length_cons]
        omega
    · have := ih false
      simp only [List.length_cons]
      omega

/-- An emitted newline run is no longer than the pending count. -/
theorem flushNl_length (p : ℕ) : (flushNl p).length ≤ p := by
  unfold flushNl
  split
  · simp
    omega
  · simp

/-- Collapsing newline runs never lengthens the text. -/
theorem collapseNlGo_length : ∀ (s : List Char) (p : ℕ),
    (collapseNlGo s p).length ≤ s.length + p := by
  intro s
  induction s with
  | nil => intro p; simpa [collapseNlGo] using flushNl_length p
  | cons c t ih =>
    intro p
    simp only [collapseNlGo]
    split
    · have := ih (p + 1)
      simp only [List.length_cons]
      omega
    · have h1 := flushNl_length p
      have h2 := ih 0
      simp only [List.length_append, List.length_cons]
      omega

/-- `removePagePatterns` never lengthens the text. -/
theorem removePagePatterns_length (t : List Char) :
    (removePagePatterns t).length ≤ t.length := by
  unfold removePagePatterns
  calc (reSubDel numOfPat (reSubDel pagePat2 (reSubDel pagePat1 t))).length
      ≤ (reSubDel pagePat2 (reSubDel pagePat1 t)).length := reSubDel_length _ _
    _ ≤ (reSubDel pagePat1 t).length := reSubDel_length _ _
    _ ≤ t.length := reSubDel_length _ _

/-- `removeFrequentLines` never lengthens the text. -/
theorem removeFrequentLines_length (t : List Char) :
    (removeFrequentLines t).length ≤ t.length := by
  unfold removeFrequentLines
  calc (joinNl ((pySplitChar '\n' t).filter _)).length
      ≤ (joinNl (pySplitChar '\n' t)).length :=
        joinSep_sublist_le ['\n'] (List.filter_sublist _)
    _ = t.length := by rw [joinNl, joinSep_splitChar]

/-- `removeTocBlock` never lengthens the text. -/
theorem removeTocBlock_length (t : List Char) :
    (removeTocBlock t).length ≤ t.length := by
  unfold removeTocBlock
  split
  · cases hs : reSearch tocBlockPat t with
    | none => exact le_refl _
    | some ab =>
      obtain ⟨a, b⟩ := ab
      have hab : a ≤ b := reSearch_span hs
      simp only [List.length_append, List.length_take, List.length_drop]
      omega
  · exact le_refl _

/-- `normalizeWs` never lengthens the text. -/
theorem normalizeWs_length (t : List Char) :
    (normalizeWs t).length ≤ t.length := by
  unfold normalizeWs
  calc (pyStrip (joinNl ((pySplitChar '\n' (collapseNl (collapseSpaces t))).map pyStrip))).length
      ≤ (joinNl ((pySplitChar '\n' (collapseNl (collapseSpaces t))).map pyStrip)).length :=
        pyStrip_length _
    _ ≤ (joinNl (pySplitChar '\n' (collapseNl (collapseSpaces t)))).length :=
        joinSep_map_le ['\n'] pyStrip pyStrip_length _
    _ = (collapseNl (collapseSpaces t)).length := by rw [joinNl, joinSep_splitChar]
    _ ≤ (collapseSpaces t).length := by
        simpa [collapseNl] using collapseNlGo_length (collapseSpaces t) 0
    _ ≤ t.length := collapseSpacesGo_length t false

/-- A cleaning pass never lengthens the text. -/
theorem clean_text_length (t : List Char) : (clean_text t).length ≤ t.length := by
  unfold clean_text
  split
  · simp
  · calc (normalizeWs (removeTocBlock (reSubDel tocLinePat
          (removeFrequentLines (removePagePatterns t))))).length
        ≤ (removeTocBlock (reSubDel tocLinePat
            (removeFrequentLines (removePagePatterns t)))).length := normalizeWs_length _
      _ ≤ (reSubDel tocLinePat (removeFrequentLines (removePagePatterns t))).length :=
          removeTocBlock_length _
      _ ≤ (removeFrequentLines (removePagePatterns t)).length := reSubDel_length _ _
      _ ≤ (removePagePatterns t).length := removeFrequentLines_length _
      _ ≤ t.length := removePagePatterns_length _

/-! ## Claim C7 — idempotence of cleaning -/

/-- C7 (counterexample): `clean_text` is not idempotent.  On
`"Page Page 1 2"` the first pass removes the span `"Page 1"` (pattern
`\bPage\s+\d+\b`), leaving `"Page 2"`; the second pass then removes the
whole remaining text, so `clean(clean(t)) ≠ clean(t)`. -/
theorem clean_text_not_idempotent :
    clean_text (pys "Page Page 1 2") = pys "Page 2" ∧
    clean_text (clean_text (pys "Page Page 1 2")) = [] ∧
    clean_text (clean_text (pys "Page Page 1 2")) ≠ clean_text (pys "Page Page 1 2") := by
  decide

/-- C7 (amended): a second cleaning pass is not a no-op in general, but it
never enlarges the text: `clean_text (clean_text t)` is at most as long as
`clean_text t` (every stage of the pass only deletes or collapses). -/
theorem clean_text_second_pass_le (t : List Char) :
    (clean_text (clean_text t)).length ≤ (clean_text t).length :=
  clean_text_length (clean_text t)

/-! ## Claim C1 — the missing-information confidence cap -/

/-- The answer text of the C1 counterexample: contains the marker
`"contact hr"`, shares both query tokens, and is longer than 100 chars. -/
def c1Answer : List Char := pys "a b contact hr " ++ List.replicate 90 'x'

set_option maxRecDepth 16000 in
/-- C1 (counterexample): with `avg_similarity = 0.9`, query `"a b"` and an
answer containing the marker `"contact hr"`, `_calculate_confidence`
returns 0.50 — the keyword-overlap boost of line 655 is applied *after*
the 0.40 cap of line 647, so the cap is not final. -/
theorem missing_info_cap_cex :
    hasMissingIndicator c1Answer = true ∧
    calculate_confidence (mkRat 9 10) c1Answer (pys "a b") = mkRat 1 2 ∧
    ¬ calculate_confidence (mkRat 9 10) c1Answer (pys "a b") ≤ mkRat 2 5 := by
  decide

/-- `mkRat 2 5` is `2/5` and `mkRat 1 10` is `1/10`. -/
theorem mkRat_val_aux : mkRat (2 : ℤ) 5 = (2 : ℚ)/5 ∧ mkRat (1 : ℤ) 10 = (1 : ℚ)/10 ∧
    mkRat (50 : ℤ) 100 = (1 : ℚ)/2 := by
  refine ⟨?_, ?_, ?_⟩ <;> (rw [mkRat_eq_divq]; norm_num)

/-- C1 (amended): whenever the answer contains a missing-information marker,
the confidence is at most 0.50 (cap at 0.40, then at most one +0.10 boost,
clamping and rounding cannot exceed it). -/
theorem missing_info_cap_le_half (avg : ℚ) (answer query : List Char)
    (h : hasMissingIndicator answer = true) :
    calculate_confidence avg answer query ≤ (1 : ℚ)/2 := by
  unfold calculate_confidence
  rw [h]
  simp only [if_true]
  have hcap : pyMin avg (mkRat 2 5) ≤ (2 : ℚ)/5 := by
    rw [pyMin_eq, mkRat_val_aux.1]
    exact min_le_right _ _
  have hhalf : ∀ x : ℚ, x ≤ (1 : ℚ)/2 → round2 (clamp01 x) ≤ (1 : ℚ)/2 := by
    intro x hx
    have h50 := round2_le_hundredth (q := clamp01 x) (m := 50)
      (by rw [mkRat_val_aux.2.2]; exact clamp01_le hx (by norm_num))
    rw [mkRat_val_aux.2.2] at h50
    exact h50
  split
  · apply hhalf
    rw [pyMin_eq, ratAdd_eq, mkRat_val_aux.2.1]
    calc min (pyMin avg (mkRat 2 5) + 1/10) 1 ≤ pyMin avg (mkRat 2 5) + 1/10 :=
          min_le_left _ _
      _ ≤ (2 : ℚ)/5 + 1/10 := by linarith
      _ = (1 : ℚ)/2 := by norm_num
  · apply hhalf
    linarith

/-- C1 amended, witnessed at a concrete marker-bearing answer. -/
theorem missing_info_cap_le_half_witness :
    hasMissingIndicator (pys "contact hr") = true ∧
    calculate_confidence 1 (pys "contact hr") (pys "q") ≤ (1 : ℚ)/2 :=
  ⟨by decide, missing_info_cap_le_half 1 (pys "contact hr") (pys "q") (by decide)⟩

/-! ## Claim C2 — escalation consistency -/

/-- A model output whose JSON carries `needsEscalation: false` together with
a low confidence. -/
def c2Json : List Char :=
  pys "\x7b\"answer\":\"x\",\"confidence\":0.2,\"needsEscalation\":false\x7d"

set_option maxRecDepth 16000 in
/-- C2 (counterexample): on the parsed-JSON path, `safe_parse_llm_json` takes
`needsEscalation` from the model's JSON (line 733) instead of deriving it
from the final confidence, and `generate_response` forwards it: the final
envelope has `confidence = 0.2 < 0.60` but `needsEscalation = false`. -/
theorem escalation_consistency_cex :
    generate_response (pys "q") [pys "d"] (some [mkRat 9 10]) (some c2Json) =
      ⟨pys "x", mkRat 1 5, false,
       pys "Answer is unclear or missing from the HR documents"⟩ ∧
    mkRat 1 5 < mkRat 3 5 := by
  decide

/-- C2 (amended): `generate_answer_with_metadata` always derives
`needsEscalation` from its final confidence with threshold 0.60; the
parsed-JSON path of `generate_response` is the exception established by the
counterexample. -/
theorem gawm_escalation_consistency (query : List Char) (chunks : List CtxIn)
    (llmOut : Option (List Char)) :
    ((generate_answer_with_metadata query chunks llmOut).needsEscalation = true ↔
      (generate_answer_with_metadata query chunks llmOut).confidence < (3 : ℚ)/5) := by
  have h35 : mkRat (3 : ℤ) 5 = (3 : ℚ)/5 := by rw [mkRat_eq_divq]; norm_num
  unfold generate_answer_with_metadata
  split
  · simp only []
    norm_num
  · simp only [decide_eq_true_eq, h35]

/-! ## Claim C6 — the zero-chunks envelope -/

/-- C6: with an empty list of retrieved context chunks, both generation
entry points return the canonical "no information" envelope with
`confidence = 0.0`, `needsEscalation = true` (and, for the metadata
variant, `sources = []`), for every query and independently of the LLM
outcome — the quantified `llmOut` shows no provider call can influence
the result. -/
theorem zero_chunks_envelope :
    (∀ (query : List Char) (llmOut : Option (List Char)),
      generate_answer_with_metadata query [] llmOut =
        ⟨canonicalNoInfo, 0, true, pys "No relevant documents found", []⟩) ∧
    (∀ (query : List Char) (sims : Option (List ℚ)) (llmOut : Option (List Char)),
      (pyStrip query).isEmpty = false →
      generate_response query [] sims llmOut =
        ⟨canonicalNoInfo, 0, true, pys "No relevant HR documents found"⟩) := by
  constructor
  · intro q l
    rfl
  · intro q sims l hq
    unfold generate_response
    simp only [hq, Bool.false_eq_true, if_false, List.isEmpty_nil, if_true]
    rfl

/-- C6, witnessed at a concrete query. -/
theorem zero_chunks_envelope_witness :
    generate_answer_with_metadata (pys "leave days") [] none =
      ⟨canonicalNoInfo, 0, true, pys "No relevant documents found", []⟩ ∧
    generate_response (pys "leave days") [] none none =
      ⟨canonicalNoInfo, 0, true, pys "No relevant HR documents found"⟩ :=
  ⟨zero_chunks_envelope.1 _ _, zero_chunks_envelope.2 _ _ _ (by decide)⟩

/-! ## Claim C5 — parser totality and the plain-text fallback -/

/-- C5 (counterexample): on the empty input, `safe_parse_llm_json` returns
the fixed fallback answer, not the (empty) cleaned input text, although no
JSON object parses — the "entire cleaned text becomes the answer" clause
fails for falsy input. -/
theorem parser_empty_input_cex :
    stripFences ([] : List Char) = [] ∧
    extract_json_from_text ([] : List Char) = none ∧
    safe_parse_llm_json [] (mkRat 9 10) =
      ⟨pys "Unable to generate a response. Please contact HR for assistance.",
       0, true, pys "Empty or invalid LLM response"⟩ ∧
    (safe_parse_llm_json [] (mkRat 9 10)).answer ≠ ([] : List Char) := by
  decide

/-- The confidence produced by `plainTextEnvelope` lies in the unit interval. -/
theorem plainTextEnvelope_conf (tc : List Char) (dc : ℚ) :
    0 ≤ (plainTextEnvelope tc dc).confidence ∧ (plainTextEnvelope tc dc).confidence ≤ 1 :=
  ⟨clamp01_nonneg dc, clamp01_le_one dc⟩

/-- The confidence produced by `parseObjEnvelope` lies in the unit interval. -/
theorem parseObjEnvelope_conf (kvs : List (List Char × JVal)) (tc : List Char)
    (dc : ℚ) : 0 ≤ (parseObjEnvelope kvs tc dc).confidence ∧
      (parseObjEnvelope kvs tc dc).confidence ≤ 1 := by
  unfold parseObjEnvelope
  cases hC : pyDictGet kvs (pys "confidence") with
  | none => exact round2_mem_unit (clamp01_nonneg dc) (clamp01_le_one dc)
  | some v =>
    dsimp only
    cases hF : pyFloat v with
    | none => exact round2_mem_unit (clamp01_nonneg dc) (clamp01_le_one dc)
    | some qv => exact round2_mem_unit (clamp01_nonneg qv) (clamp01_le_one qv)

/-- The confidence produced by `parsedEnvelope` lies in the unit interval. -/
theorem parsedEnvelope_conf (parsed : JVal) (tc : List Char) (dc : ℚ) :
    0 ≤ (parsedEnvelope parsed tc dc).confidence ∧
      (parsedEnvelope parsed tc dc).confidence ≤ 1 := by
  cases parsed with
  | jobj kvs => exact parseObjEnvelope_conf kvs tc dc
  | jnull => exact plainTextEnvelope_conf tc dc
  | jbool b => exact plainTextEnvelope_conf tc dc
  | jnum q2 => exact plainTextEnvelope_conf tc dc
  | jstr s2 => exact plainTextEnvelope_conf tc dc
  | jarr l2 => exact plainTextEnvelope_conf tc dc

/-- C5 (amended): for every non-empty input and every baseline, the parser
returns a four-field structure whose confidence lies in `[0, 1]`, and when
no JSON object can be extracted, the entire cleaned input text becomes the
answer, with the clamped baseline as confidence and the threshold rule on
the unclamped baseline as escalation flag. -/
theorem safe_parse_total (s : List Char) (baseline : ℚ) (hs : s ≠ []) :
    0 ≤ (safe_parse_llm_json s baseline).confidence ∧
    (safe_parse_llm_json s baseline).confidence ≤ 1 ∧
    (extract_json_from_text (stripFences s) = none →
      safe_parse_llm_json s baseline =
        ⟨stripFences s, clamp01 baseline, decide (baseline < mkRat 3 5), []⟩) := by
  have hsE : s.isEmpty = false := by
    cases s with
    | nil => exact absurd rfl hs
    | cons a t => rfl
  unfold safe_parse_llm_json
  simp only [hsE, Bool.false_eq_true, if_false]
  cases hX : extract_json_from_text (stripFences s) with
  | none =>
    exact ⟨clamp01_nonneg _, clamp01_le_one _, fun _ => rfl⟩
  | some j =>
    dsimp only
    cases hJ : jsonLoads j with
    | none =>
      exact ⟨clamp01_nonneg _, clamp01_le_one _, fun hc => nomatch hc⟩
    | some parsed =>
      have hb := parsedEnvelope_conf parsed (stripFences s) baseline
      exact ⟨hb.1, hb.2, fun hc => nomatch hc⟩

/-- C5 amended, witnessed at a concrete plain-text input. -/
theorem safe_parse_total_witness :
    0 ≤ (safe_parse_llm_json (pys "plain text") (mkRat 9 10)).confidence ∧
    (safe_parse_llm_json (pys "plain text") (mkRat 9 10)).confidence ≤ 1 ∧
    (extract_json_from_text (stripFences (pys "plain text")) = none →
      safe_parse_llm_json (pys "plain text") (mkRat 9 10) =
        ⟨stripFences (pys "plain text"), clamp01 (mkRat 9 10),
         decide (mkRat 9 10 < mkRat 3 5), []⟩) :=
  safe_parse_total (pys "plain text") (mkRat 9 10) (by decide)

/-! ## Claim C3 — chunking and the final buffer -/

/-- A list of the form `if x.isEmpty then y else x` is non-empty when `y` is. -/
theorem isEmpty_ite_ne {α : Type} (x y : List α) (hy : y ≠ []) :
    (if x.isEmpty then y else x) ≠ [] := by
  split
  · exact hy
  · next h =>
    intro hc
    rw [hc] at h
    exact h rfl

/-- `split_into_sentences` never returns an empty list on non-empty input
(line 124: `return result if result else [text]`). -/
theorem split_into_sentences_ne_nil (text : List Char) (h : text ≠ []) :
    split_into_sentences text ≠ [] := by
  unfold split_into_sentences
  have hE : text.isEmpty = false := by
    cases text with
    | nil => exact absurd rfl h
    | cons a t => rfl
  simp only [hE, Bool.false_eq_true, if_false]
  exact isEmpty_ite_ne _ [text] (by simp)

/-- After processing a sentence the accumulation buffer is never empty. -/
theorem procSentence_current_ne (maxC ov : ℕ) (acc : CAcc) (sentence : List Char) :
    (procSentence maxC ov acc sentence).current ≠ [] := by
  unfold procSentence
  dsimp only
  split
  · split <;> simp
  · simp

/-- Folding the sentence loop over a non-empty sentence list leaves a
non-empty accumulation buffer. -/
theorem foldl_procSentence_current (maxC ov : ℕ) : ∀ (l : List (List Char))
    (acc : CAcc), l ≠ [] → (l.foldl (procSentence maxC ov) acc).current ≠ [] := by
  intro l
  induction l with
  | nil => intro acc h; exact absurd rfl h
  | cons x xs ih =>
    intro acc _
    cases hxs : xs with
    | nil => simpa using procSentence_current_ne maxC ov acc x
    | cons y ys =>
      rw [← hxs]
      simp only [List.foldl_cons]
      exact ih (procSentence maxC ov acc x) (by rw [hxs]; simp)

/-- After processing any non-empty paragraph, the state has an emitted chunk
or a non-empty buffer. -/
theorem procParagraph_inv (tgt maxC ov : ℕ) (acc : CAcc) (para : List Char)
    (hp : para ≠ []) :
    (procParagraph tgt maxC ov acc para).chunks ≠ [] ∨
    (procParagraph tgt maxC ov acc para).current ≠ [] := by
  unfold procParagraph
  dsimp only
  split
  · exact Or.inr (foldl_procSentence_current maxC ov _ _
      (split_into_sentences_ne_nil para hp))
  · split
    · split <;> exact Or.inr (by simp)
    · split
      · exact Or.inl (by simp)
      · exact Or.inr (by simp)

/-- Folding the paragraph loop over a non-empty list of non-empty paragraphs
establishes the emitted-or-buffered invariant. -/
theorem foldl_procParagraph_inv (tgt maxC ov : ℕ) : ∀ (l : List (List Char))
    (acc : CAcc), l ≠ [] → (∀ p ∈ l, p ≠ []) →
    (l.foldl (procParagraph tgt maxC ov) acc).chunks ≠ [] ∨
    (l.foldl (procParagraph tgt maxC ov) acc).current ≠ [] := by
  intro l
  induction l with
  | nil => intro acc h _; exact absurd rfl h
  | cons x xs ih =>
    intro acc _ hall
    cases hxs : xs with
    | nil =>
      simpa using procParagraph_inv tgt maxC ov acc x (hall x (by simp))
    | cons y ys =>
      rw [← hxs]
      simp only [List.foldl_cons]
      exact ih (procParagraph tgt maxC ov acc x) (by rw [hxs]; simp)
        (fun p hpmem => hall p (List.mem_cons_of_mem x hpmem))

/-- C3 (amended, part 2): for every text with at least one non-blank
paragraph, `chunk_text` returns at least one chunk, whatever the size
parameters; the final buffer, however, is only emitted when it reaches
`min_chunk_size` or nothing was emitted before it (see the counterexample). -/
theorem chunk_text_nonempty (text : List Char) (tgt mn maxC ov : ℕ)
    (hp : ((pySplitPara text).map pyStrip).filter (fun p => !p.isEmpty) ≠ []) :
    chunk_text text tgt mn maxC ov ≠ [] := by
  unfold chunk_text
  have hE : text.isEmpty = false := by
    cases htext : text with
    | nil =>
      subst htext
      exact absurd (by decide) hp
    | cons a t => rfl
  simp only [hE, Bool.false_eq_true, if_false]
  rw [if_neg (by simpa [List.isEmpty_iff] using hp)]
  have hinv := foldl_procParagraph_inv tgt maxC ov
    (((pySplitPara text).map pyStrip).filter (fun p => !p.isEmpty)) ⟨[], [], 0, 1⟩ hp
    (fun p hpmem => by
      have := List.of_mem_filter hpmem
      simpa [List.isEmpty_iff] using this)
  split
  · split
    · simp
    · next hcond =>
      simp only [Bool.or_eq_true, decide_eq_true_eq, not_or] at hcond
      intro hc
      rw [hc] at hcond
      exact hcond.2 rfl
  · next hcur =>
    rcases hinv with hchunks | hcur2
    · exact hchunks
    · exfalso
      apply hcur2
      simpa [List.isEmpty_iff] using hcur

/-- The C3 counterexample input: a 400-word paragraph followed by a short
trailing paragraph. -/
def c3Text : List Char :=
  joinSp (List.replicate 400 (pys "w")) ++ pys "\n\ntail tail tail tail tail"

set_option maxRecDepth 60000 in
/-- C3 (counterexample): at the default parameters, the first paragraph is
emitted as a chunk (400 ≥ target) and the trailing five-word paragraph is
left in the final buffer, which line 262 then drops because its word count
is below `min_chunk_size` and a chunk already exists — the trailing
sentence is lost from the concatenated chunk texts. -/
theorem final_buffer_dropped_cex :
    chunk_text c3Text 400 300 500 50 =
      [⟨1, joinSp (List.replicate 400 (pys "w"))⟩] ∧
    containsSub (pys "tail")
      (joinSp ((chunk_text c3Text 400 300 500 50).map (fun c => c.text))) = false ∧
    ((pySplitPara c3Text).map pyStrip).filter (fun p => !p.isEmpty) =
      [joinSp (List.replicate 400 (pys "w")), pys "tail tail tail tail tail"] := by
  decide

/-- C3 amended, witnessed at a concrete short text. -/
theorem chunk_text_nonempty_witness :
    ((pySplitPara (pys "hello")).map pyStrip).filter (fun p => !p.isEmpty) ≠ [] ∧
    chunk_text (pys "hello") 400 300 500 50 ≠ [] :=
  ⟨by decide, chunk_text_nonempty (pys "hello") 400 300 500 50 (by decide)⟩

/-! ## Claims C4 and C10 — top-k search -/

/-- C4 (counterexample): two stored vectors with equal similarity 1.0; the
result lists the **larger** original index first (`chunk_id` 2 before 1),
because `np.argsort(...)[::-1]` reverses a stable ascending sort. -/
theorem tie_break_cex :
    search_similar_chunks (pys "q") [1] [[1], [1]] [pys "a", pys "b"] 2 =
      [⟨2, pys "b", 1⟩, ⟨1, pys "a", 1⟩] := by
  decide

/-- C4 (amended): for valid inputs, the result has exactly
`min(top_k, n)` entries and scores are non-increasing; among equal scores
the entry with the **larger** original index comes first. -/
theorem search_ordering (query : List Char) (qEmb : List ℚ)
    (vectors : List (List ℚ)) (texts : List (List Char)) (top_k : ℤ)
    (hq : (pyStrip query).isEmpty = false) (hv : vectors ≠ []) (ht : texts ≠ [])
    (hlen : vectors.length = texts.length) (hk : 0 < top_k) :
    (search_similar_chunks query qEmb vectors texts top_k).length =
      min top_k.toNat texts.length ∧
    (search_similar_chunks query qEmb vectors texts top_k).Pairwise
      (fun a b => b.score ≤ a.score ∧ (b.score = a.score → b.chunk_id ≤ a.chunk_id)) := by
  have hvE : vectors.isEmpty = false := by
    cases vectors with
    | nil => exact absurd rfl hv
    | cons a t => rfl
  have htE : texts.isEmpty = false := by
    cases texts with
    | nil => exact absurd rfl ht
    | cons a t => rfl
  unfold search_similar_chunks
  simp only [hq, hvE, htE, Bool.false_eq_true, if_false]
  rw [if_neg (by simp [hlen]), if_neg (by omega)]
  have hslen : (vectors.map (fun v => dotQ v qEmb)).length = texts.length := by
    rw [List.length_map, hlen]
  have hperm := List.perm_insertionSort (simRel (vectors.map (fun v => dotQ v qEmb)))
    (List.range (vectors.map (fun v => dotQ v qEmb)).length)
  have hlen2 : (argsortAsc (vectors.map (fun v => dotQ v qEmb))).length =
      (vectors.map (fun v => dotQ v qEmb)).length := by
    unfold argsortAsc
    rw [hperm.length_eq, List.length_range]
  constructor
  · rw [List.length_map, List.length_take, List.length_reverse, hlen2, hslen]
    unfold pyMinI
    split <;> omega
  · rw [List.pairwise_map]
    have hsorted : List.Pairwise (simRel (vectors.map (fun v => dotQ v qEmb)))
        (argsortAsc (vectors.map (fun v => dotQ v qEmb))) :=
      List.sorted_insertionSort _ _
    have hrev : List.Pairwise
        (fun i j => simRel (vectors.map (fun v => dotQ v qEmb)) j i)
        ((argsortAsc (vectors.map (fun v => dotQ v qEmb))).reverse) :=
      List.pairwise_reverse.mpr hsorted
    have htake := hrev.sublist
      (List.take_sublist
        (pyMinI top_k ((vectors.map (fun v => dotQ v qEmb)).length : ℤ)).toNat
        ((argsortAsc (vectors.map (fun v => dotQ v qEmb))).reverse))
    apply htake.imp
    intro i j hij
    rcases hij with hlt | ⟨heq, hle⟩
    · refine ⟨le_of_lt hlt, fun hs => ?_⟩
      dsimp only at hs
      rw [hs] at hlt
      exact absurd hlt (lt_irrefl _)
    · exact ⟨le_of_eq heq, fun _ => Nat.add_le_add_right hle 1⟩

/-- C4 amended, witnessed at a concrete two-vector index. -/
theorem search_ordering_witness :
    (search_similar_chunks (pys "q") [1] [[1], [2]] [pys "a", pys "b"] 2).length =
      min (2 : ℤ).toNat 2 ∧
    (search_similar_chunks (pys "q") [1] [[1], [2]] [pys "a", pys "b"] 2).Pairwise
      (fun a b => b.score ≤ a.score ∧ (b.score = a.score → b.chunk_id ≤ a.chunk_id)) :=
  search_ordering (pys "q") [1] [[1], [2]] [pys "a", pys "b"] 2
    (by decide) (by decide) (by decide) (by decide) (by decide)

/-- C10: every retrieval result's `chunk_id` is its source position in the
stored `texts` list plus one, with matching text and score; the ids
supplied at ingestion never reach the results (the function receives only
`vectors`/`texts`). -/
theorem search_chunk_id_positional (query : List Char) (qEmb : List ℚ)
    (vectors : List (List ℚ)) (texts : List (List Char)) (top_k : ℤ) :
    ∀ r ∈ search_similar_chunks query qEmb vectors texts top_k,
      ∃ i, i < texts.length ∧ r.chunk_id = i + 1 ∧ r.text = texts.getD i [] ∧
        r.score = (vectors.map (fun v => dotQ v qEmb)).getD i 0 := by
  intro r hr
  unfold search_similar_chunks at hr
  split at hr
  · exact absurd hr (List.not_mem_nil r)
  · split at hr
    · exact absurd hr (List.not_mem_nil r)
    · split at hr
      · exact absurd hr (List.not_mem_nil r)
      · split at hr
        · exact absurd hr (List.not_mem_nil r)
        · split at hr
          · exact absurd hr (List.not_mem_nil r)
          · next h1 h2 h3 hlen hk =>
            obtain ⟨i, hi_mem, rfl⟩ := List.mem_map.mp hr
            have hi_rev : i ∈ (argsortAsc (vectors.map (fun v => dotQ v qEmb))).reverse :=
              (List.take_sublist _ _).subset hi_mem
            have hi_sort : i ∈ argsortAsc (vectors.map (fun v => dotQ v qEmb)) :=
              List.mem_reverse.mp hi_rev
            have hi_range : i ∈ List.range (vectors.map (fun v => dotQ v qEmb)).length := by
              unfold argsortAsc at hi_sort
              exact (List.perm_insertionSort _ _).mem_iff.mp hi_sort
            have hi_lt : i < vectors.length := by
              rw [List.mem_range, List.length_map] at hi_range
              exact hi_range
            have hlen2 : vectors.length = texts.length := by
              by_contra hne
              exact hlen (by omega)
            exact ⟨i, by omega, rfl, rfl, rfl⟩

/-- C10, witnessed at a concrete index and result. -/
theorem search_chunk_id_positional_witness :
    (⟨2, pys "b", 2⟩ : RResult) ∈
      search_similar_chunks (pys "q") [1] [[1], [2]] [pys "a", pys "b"] 1 ∧
    (∃ i, i < ([pys "a", pys "b"] : List (List Char)).length ∧
      (⟨2, pys "b", 2⟩ : RResult).chunk_id = i + 1 ∧
      (⟨2, pys "b", 2⟩ : RResult).text = ([pys "a", pys "b"] : List (List Char)).getD i [] ∧
      (⟨2, pys "b", 2⟩ : RResult).score =
        (([[1], [2]] : List (List ℚ)).map (fun v => dotQ v [1])).getD i 0) :=
  ⟨by decide, search_chunk_id_positional (pys "q") [1] [[1], [2]] [pys "a", pys "b"] 1
    ⟨2, pys "b", 2⟩ (by decide)⟩

/-! ## Claims C8 and C9 — reindex failure atomicity and the live swap -/

/-- C8: whenever `reindex_hr_documents` reports failure (`False`), the live
index state is returned untouched — every failure return (missing modules,
no PDF files, no chunks, the `(None, [])` embed sentinel, which also covers
encode exceptions) happens before any global assignment; and an embed
failure always yields `(False, st)`. -/
theorem reindex_failure_preserves_state (modsAvail : Bool)
    (pdfFiles : List (List Char × Option (List Char)))
    (encode : List (List Char) → Option (List (List ℚ))) (st : IndexState) :
    ((reindex_hr_documents modsAvail pdfFiles encode st).1 = false →
      (reindex_hr_documents modsAvail pdfFiles encode st).2 = st) ∧
    (embed_chunks (reindexChunks pdfFiles 1) encode = none →
      reindex_hr_documents modsAvail pdfFiles encode st = (false, st)) := by
  unfold reindex_hr_documents
  constructor
  · split
    · intro _; rfl
    · split
      · intro _; rfl
      · dsimp only
        split
        · intro _; rfl
        · split
          · intro _; rfl
          · intro h
            exact absurd h (by simp)
  · intro hEm
    split
    · rfl
    · split
      · rfl
      · dsimp only
        split
        · rfl
        · rw [hEm]

/-- C8, witnessed at a concrete failing reindex (no PDF files found). -/
theorem reindex_failure_witness :
    (reindex_hr_documents true [] (fun _ => none)
        ⟨some [[1]], [pys "a"], [⟨1, pys "f", pys "a"⟩], true⟩).1 = false ∧
    (reindex_hr_documents true [] (fun _ => none)
        ⟨some [[1]], [pys "a"], [⟨1, pys "f", pys "a"⟩], true⟩).2 =
      ⟨some [[1]], [pys "a"], [⟨1, pys "f", pys "a"⟩], true⟩ :=
  ⟨by decide,
   (reindex_failure_preserves_state true [] (fun _ => none)
      ⟨some [[1]], [pys "a"], [⟨1, pys "f", pys "a"⟩], true⟩).1 (by decide)⟩

/-- C9 (counterexample): the live-index update is a sequence of separate
assignments, not one atomic swap.  After the first store (`_embeddings`)
but before the second (`_chunk_texts`), the state mixes the two new vectors
with the single old text: `len(vectors) = 2 ≠ 1 = len(texts)`. -/
theorem reindex_swap_not_atomic_cex :
    applySteps ((reindexUpdateSteps [[1], [2]] [pys "a", pys "b"]
        [⟨1, pys "f", pys "a"⟩, ⟨2, pys "f", pys "b"⟩]).take 1)
      ⟨some [[1]], [pys "a"], [⟨1, pys "f", pys "a"⟩], true⟩ =
      ⟨some [[1], [2]], [pys "a"], [⟨1, pys "f", pys "a"⟩], true⟩ ∧
    ((applySteps ((reindexUpdateSteps [[1], [2]] [pys "a", pys "b"]
        [⟨1, pys "f", pys "a"⟩, ⟨2, pys "f", pys "b"⟩]).take 1)
      ⟨some [[1]], [pys "a"], [⟨1, pys "f", pys "a"⟩], true⟩).embeddings.getD []).length = 2 ∧
    (applySteps ((reindexUpdateSteps [[1], [2]] [pys "a", pys "b"]
        [⟨1, pys "f", pys "a"⟩, ⟨2, pys "f", pys "b"⟩]).take 1)
      ⟨some [[1]], [pys "a"], [⟨1, pys "f", pys "a"⟩], true⟩).chunkTexts.length = 1 := by
  decide

/-- C9 (amended): once the whole assignment sequence has run, the state
holds exactly the new index (vectors, texts, metadata, loaded flag) — but
only the completed sequence is atomic-equivalent; its strict prefixes are
observable intermediate states (see the counterexample). -/
theorem reindex_steps_final (embs : List (List ℚ)) (texts : List (List Char))
    (metas : List MetaEntry) (st : IndexState) :
    applySteps (reindexUpdateSteps embs texts metas) st =
      ⟨some embs, texts, metas, true⟩ := by
  have happ : ∀ (ms : List MetaEntry) (s0 : IndexState),
      ((ms.map (fun m => fun s : IndexState =>
          { s with chunksMetadata := s.chunksMetadata ++ [m] })).foldl
        (fun s f => f s) s0) = { s0 with chunksMetadata := s0.chunksMetadata ++ ms } := by
    intro ms
    induction ms with
    | nil => intro s0; simp
    | cons m rest ih =>
      intro s0
      simp only [List.map_cons, List.foldl_cons, ih]
      simp
  unfold applySteps reindexUpdateSteps
  simp only [List.foldl_append, List.foldl_cons, List.foldl_nil]
  rw [happ]
  rfl
